import Mathlib

/-!
Verification of the Fortune-sweepline Voronoi core (`sweepline.hpp`).

The implementation is a shallow embedding over `ℚ` (the C++ core is a
template over an arbitrary `value_type`; every arithmetic operation used
by the core is field arithmetic plus `sqrt`/`hypot`, which we model by an
explicit square-root oracle `sq : ℚ → ℚ` passed to the operations that
need it).  Container semantics (`std::set`, `std::map`, `std::list`)
are modelled by lists with the corresponding ordered-insert /
equivalence-lookup behaviour; iterators become stable numeric ids or
positions.  Assertions are modelled with release semantics (no-ops), and
conditions of interest are exposed as separate predicates.
-/

namespace Sweepline

set_option maxRecDepth 2500

/-- `point_type`: a pair of coordinates. -/
structure Pt where
  x : ℚ
  y : ℚ
deriving DecidableEq

instance : Inhabited Pt := ⟨⟨0, 0⟩⟩

/-- `vertex`: circumscribed circle, center `p` and radius `R`. -/
structure Vtx where
  p : Pt
  R : ℚ
deriving DecidableEq

instance : Inhabited Vtx := ⟨⟨⟨0, 0⟩, 0⟩⟩

/-- `vertex::x()`: the touch coordinate `p.x + R`. -/
def Vtx.tx (v : Vtx) : ℚ := v.p.x + v.R

/-- `vertex::y()`: the center ordinate `p.y`. -/
def Vtx.ty (v : Vtx) : ℚ := v.p.y

/-- `std::tie(a.1, a.2) < std::tie(b.1, b.2)`: exact lexicographic
comparison of two pairs, as performed by `std::tuple::operator<`. -/
def tieLt (a b : ℚ × ℚ) : Bool :=
  decide (a.1 < b.1) || (decide (a.1 = b.1) && decide (a.2 < b.2))

/-- `point_less::operator()(point_type, point_type)` (sweepline.hpp:56-61):
compares `(l.x + eps, l.y + eps)` with `(r.x, r.y)` by `std::tie`. -/
def pointLess (eps : ℚ) (l r : Pt) : Bool :=
  tieLt (l.x + eps, l.y + eps) (r.x, r.y)

/-- `point_less::operator()(vertex, vertex)` (sweepline.hpp:68-71):
compares the two circumcenters with `point_less`. -/
def vertexLess (eps : ℚ) (l r : Vtx) : Bool :=
  pointLess eps l.p r.p

/-- `event_less::operator()` (sweepline.hpp:259-267): compares
`(l.x() + eps, l.y() + eps)` with `(r.x(), r.y())` by `std::tie`. -/
def eventLess (eps : ℚ) (l r : Vtx) : Bool :=
  tieLt (l.tx + eps, l.ty + eps) (r.tx, r.ty)

/-- `sweepline::prior` (sweepline.hpp:481-487): compares
`(l.x() + eps, l.y() + eps)` with `(r.x, r.y)` by `std::tie`. -/
def prior (eps : ℚ) (l : Vtx) (r : Pt) : Bool :=
  tieLt (l.tx + eps, l.ty + eps) (r.x, r.y)

/-- Modelled from the spec (§4.1 "Lexicographic comparison with
tolerance"): "A point p is strictly before point q when p.x + ε < q.x,
or (p.x + ε ≥ q.x ≥ p.x − ε) and p.y + ε < q.y."  This is the
comparison the specification claims `point_less` performs; it is kept
separate so that it can be compared with the comparator actually found
in the source. -/
def specPointLess (eps : ℚ) (p q : Pt) : Bool :=
  decide (p.x + eps < q.x) ||
    (decide (q.x ≤ p.x + eps) && decide (p.x - eps ≤ q.x) && decide (p.y + eps < q.y))

/-- Modelled from the spec (§4.5 step 1, via claim C4): the driver is
said to fire an event for vertex `v` before site `p` when `(v.x+R, v.y)`
is strictly before `(p.x, p.y)` under the tolerance: touch coordinate
less than `p.x`, or equal within tolerance and `v.y` before `p.y`. -/
def specPrior (eps : ℚ) (v : Vtx) (p : Pt) : Bool :=
  decide (v.tx + eps < p.x) ||
    (decide (p.x ≤ v.tx + eps) && decide (v.tx - eps ≤ p.x) && decide (v.ty + eps < p.y))

/-- `endpoint_less::intersect(point, point, value_type)`
(sweepline.hpp:174-217): ordinate of the intersection of the two
parabolas with foci `l`, `r` and directrix `x = d`. All local values and
the branch structure mirror the source line by line; `sq` stands for
`std::sqrt`. -/
def intersect (sq : ℚ → ℚ) (eps : ℚ) (l r : Pt) (d : ℚ) : ℚ :=
  if ¬(l.x + eps < d) then
    if ¬(r.x + eps < d) then (l.y + r.y) / 2 else l.y
  else if ¬(r.x + eps < d) then r.y
  else
    let ld0 := l.x - d
    let rd0 := r.x - d
    let lb := l.y / ld0
    let rb := r.y / rd0
    let ld := ld0 + ld0
    let rd := rd0 + rd0
    let d2 := d * d
    let lc := (l.x * l.x + l.y * l.y - d2) / ld
    let rc := (r.x * r.x + r.y * r.y - d2) / rd
    let b := rb - lb
    let c := rc - lc
    if (l.x + eps < r.x) ∨ (r.x + eps < l.x) then
      let a0 := (ld - rd) / (ld * rd)
      let a := a0 + a0
      let D := b * b - (a + a) * c
      (b + sq D) / a
    else
      c / b

/-- The discriminant `D = b*b - (a+a)*c` computed by the quadratic
branch of `intersect`, as a function of the foci and the directrix. -/
def intersectD (l r : Pt) (d : ℚ) : ℚ :=
  let ld := (l.x - d) + (l.x - d)
  let rd := (r.x - d) + (r.x - d)
  let lb := l.y / (l.x - d)
  let rb := r.y / (r.x - d)
  let d2 := d * d
  let lc := (l.x * l.x + l.y * l.y - d2) / ld
  let rc := (r.x * r.x + r.y * r.y - d2) / rd
  let b := rb - lb
  let c := rc - lc
  let a0 := (ld - rd) / (ld * rd)
  let a := a0 + a0
  b * b - (a + a) * c

/-- A point `q` lies on the parabola with focus `f` and directrix
`x = d` (equidistance of focus and directrix). -/
def OnParabola (f : Pt) (d : ℚ) (q : Pt) : Prop :=
  (q.x - f.x) ^ 2 + (q.y - f.y) ^ 2 = (q.x - d) ^ 2

instance (f : Pt) (d : ℚ) (q : Pt) : Decidable (OnParabola f d q) := by
  unfold OnParabola; infer_instance

/-- `edge`: two sites (indices into the input sequence) and two optional
vertex endpoints (ids into the vertex container); `none` is `nov`. -/
structure Edge where
  l : ℕ
  r : ℕ
  b : Option ℕ
  e : Option ℕ
deriving DecidableEq

instance : Inhabited Edge := ⟨⟨0, 0, none, none⟩⟩

/-- `trunc_edge` (sweepline.hpp:423-455) with the edge's two site points
`lp`/`rp` and the truncating vertex's center `vp` already dereferenced;
`v` is the vertex id being written into the edge. -/
def truncEdge (lp rp vp : Pt) (ed : Edge) (v : ℕ) : Edge :=
  match ed.b with
  | none =>
    match ed.e with
    | none =>
      if rp.x < lp.x then
        if vp.y < lp.y then { ed with b := some v } else { ed with e := some v }
      else if lp.x < rp.x then
        if rp.y < vp.y then { ed with b := some v } else { ed with e := some v }
      else
        { ed with e := some v }
    | some _ => { ed with b := some v }
  | some _ => { ed with e := some v }

/-- The doubled signed area `G = B*C - A*D` computed by `make_vertex`
(sweepline.hpp:336-340). -/
def areaG (a b c : Pt) : ℚ :=
  (b.y - a.y) * (c.x - b.x) - (b.x - a.x) * (c.y - b.y)

/-- The product `V = (a+b-c)*(a+c-b)*(b+c-a)` whose positivity is the
"triangle inequality" assertion of `circumradius` (sweepline.hpp:325-326). -/
def triangleV (a b c : ℚ) : ℚ :=
  (a + b - c) * (a + c - b) * (b + c - a)

/-- `circumradius` (sweepline.hpp:320-329), release semantics: the
assertion `eps < V` is dropped; `sq` stands for `std::sqrt`. -/
def circumradius (sq : ℚ → ℚ) (a b c : ℚ) : ℚ :=
  (a * b * c) / sq (triangleV a b c * (a + b + c))

/-- `std::hypot`, modelled through the square-root oracle. -/
def hypotQ (sq : ℚ → ℚ) (a b : ℚ) : ℚ :=
  sq (a * a + b * b)

/-- The circumcircle data computed by `make_vertex` (sweepline.hpp:331-358)
once the guard `eps*eps < G` has passed: the circumcenter and the radius
(by `circumradius` over the three `hypot` side lengths). -/
def circumVtx (sq : ℚ → ℚ) (a b c : Pt) : Vtx :=
  let A := b.x - a.x
  let B := b.y - a.y
  let C := c.x - b.x
  let D := c.y - b.y
  let G := B * C - A * D
  let E := c.x - a.x
  let F := c.y - a.y
  let M := A * (a.x + b.x) + B * (a.y + b.y)
  let N := E * (a.x + c.x) + F * (a.y + c.y)
  let G2 := G + G
  let x := (B * N - F * M) / G2
  let y := (E * M - A * N) / G2
  let R := circumradius sq (hypotQ sq A B) (hypotQ sq C D) (hypotQ sq E F)
  ⟨⟨x, y⟩, R⟩

/-- A beach-line entry (`endpoint` key of the `endpoints` map together
with its mapped `pvertex` value): the two cells `l`, `r` (cell handles
are the site indices that key them), the growing edge `e` (index into
the edge list) and the cross-link `link` to a pending event's vertex id
(`none` is `nov`).  `id` is a stable handle playing the role of the
`std::map` iterator. -/
structure Ep where
  id : ℕ
  l : ℕ
  r : ℕ
  e : ℕ
  link : Option ℕ
deriving DecidableEq

instance : Inhabited Ep := ⟨⟨0, 0, 0, 0, none⟩⟩

/-- An event-queue entry: key vertex id `v`, mapped `pendpoint` value
`link` (`none` is `noep`, `some i` is the id of a beach-line entry). -/
structure Ev where
  v : ℕ
  link : Option ℕ
deriving DecidableEq

instance : Inhabited Ev := ⟨⟨0, none⟩⟩

/-- The whole state of a `sweepline` instance: the three output
containers (`verts`, `edges`, `cells`), the beach line `bl` (in beach
order) and the event queue `evs` (in `event_less` order).  `verts`
pairs each stored vertex with a stable id; `cells` is kept in
`point_less` order on the keying site. -/
structure VD where
  nextVid : ℕ
  nextEpid : ℕ
  verts : List (ℕ × Vtx)
  edges : List Edge
  cells : List (ℕ × List ℕ)
  bl : List Ep
  evs : List Ev
deriving DecidableEq

/-- The state at construction: every container empty. -/
def emptyVD : VD := ⟨0, 0, [], [], [], [], []⟩

/-- Dereference a site handle (index into the input sequence). -/
def sitePt (pts : List Pt) (i : ℕ) : Pt := pts.getD i default

/-- Dereference a vertex id in the vertex container (an erased or
unknown id yields a default value; the C++ counterpart would be
undefined behaviour there). -/
def getVtx (st : VD) (i : ℕ) : Vtx :=
  match st.verts.find? (fun vw => vw.1 == i) with
  | some vw => vw.2
  | none => default

/-- `vertices_.insert(v)` (`std::set` semantics with `point_less`): if
an equivalent element is present return its id and leave the container
unchanged, otherwise append the new vertex under a fresh id.  Returns
the id (`insert(...).first`) and the new state. -/
def vertsInsert (eps : ℚ) (st : VD) (v : Vtx) : ℕ × VD :=
  match st.verts.find? (fun vw => !vertexLess eps v vw.2 && !vertexLess eps vw.2 v) with
  | some vw => (vw.1, st)
  | none => (st.nextVid, { st with nextVid := st.nextVid + 1
                                   verts := st.verts ++ [(st.nextVid, v)] })

/-- `vertices_.erase(v)`. -/
def vertsErase (st : VD) (i : ℕ) : VD :=
  { st with verts := st.verts.filter (fun vw => vw.1 != i) }

/-- `cells_.insert({p, {}})` (`std::map` ordered-insert semantics with
`point_less` on the keying site): returns the updated cell list, the
handle of the inserted-or-found entry (the site index keying it) and
the `second` flag of `std::map::insert`. -/
def cellsInsert (eps : ℚ) (pts : List Pt) :
    List (ℕ × List ℕ) → ℕ → List (ℕ × List ℕ) × ℕ × Bool
  | [], p => ([(p, [])], p, true)
  | c :: cs, p =>
    if pointLess eps (sitePt pts p) (sitePt pts c.1) then
      ((p, []) :: c :: cs, p, true)
    else if pointLess eps (sitePt pts c.1) (sitePt pts p) then
      let r := cellsInsert eps pts cs p
      (c :: r.1, r.2)
    else
      (c :: cs, c.1, false)

/-- `cell.second.push_front(edge)` on the cell keyed by site `s`. -/
def cellPushFront (st : VD) (s : ℕ) (eid : ℕ) : VD :=
  { st with cells := st.cells.map (fun c => if c.1 = s then (c.1, eid :: c.2) else c) }

/-- `cell.second.push_back(edge)` on the cell keyed by site `s`. -/
def cellPushBack (st : VD) (s : ℕ) (eid : ℕ) : VD :=
  { st with cells := st.cells.map (fun c => if c.1 = s then (c.1, c.2 ++ [eid]) else c) }

/-- The deque of edges attached to the cell keyed by site `s`. -/
def cellEdges (st : VD) (s : ℕ) : List ℕ :=
  match st.cells.find? (fun c => c.1 == s) with
  | some c => c.2
  | none => []

/-- `endpoint_less::operator()(point, endpoint)` (sweepline.hpp:235-238). -/
def ptLtEp (sq : ℚ → ℚ) (eps : ℚ) (pts : List Pt) (p : Pt) (ep : Ep) : Bool :=
  decide (p.y + eps < intersect sq eps (sitePt pts ep.l) (sitePt pts ep.r) p.x)

/-- `endpoint_less::operator()(endpoint, point)` (sweepline.hpp:240-243). -/
def epLtPt (sq : ℚ → ℚ) (eps : ℚ) (pts : List Pt) (ep : Ep) (p : Pt) : Bool :=
  decide (intersect sq eps (sitePt pts ep.l) (sitePt pts ep.r) p.x + eps < p.y)

/-- `endpoint_less::operator()(vertex, endpoint)` (sweepline.hpp:225-228). -/
def vLtEp (sq : ℚ → ℚ) (eps : ℚ) (pts : List Pt) (v : Vtx) (ep : Ep) : Bool :=
  decide (v.ty + eps < intersect sq eps (sitePt pts ep.l) (sitePt pts ep.r) v.tx)

/-- `endpoint_less::operator()(endpoint, vertex)` (sweepline.hpp:230-233). -/
def epLtV (sq : ℚ → ℚ) (eps : ℚ) (pts : List Pt) (ep : Ep) (v : Vtx) : Bool :=
  decide (intersect sq eps (sitePt pts ep.l) (sitePt pts ep.r) v.tx + eps < v.ty)

/-- `endpoints_.lower_bound` under a transparent probe: position of the
first beach-line entry not less than the probe (the list length stands
for `std::end`). -/
def blLowerBound (lt : Ep → Bool) : List Ep → ℕ
  | [] => 0
  | ep :: rest => if lt ep then blLowerBound lt rest + 1 else 0

/-- `endpoints_.upper_bound` under a transparent probe: position of the
first beach-line entry the probe is less than. -/
def blUpperBound (gt : Ep → Bool) : List Ep → ℕ
  | [] => 0
  | ep :: rest => if gt ep then 0 else blUpperBound gt rest + 1

/-- Position of the beach-line entry with id `i` (its iterator). -/
def blIdxOf : List Ep → ℕ → ℕ
  | [], _ => 0
  | ep :: rest, i => if ep.id = i then 0 else blIdxOf rest i + 1

/-- Update the `link` field (the mapped `pvertex`) of the beach-line
entries at positions `lo ≤ j < hi`, counting from `j`. -/
def setLinksFrom (lo hi : ℕ) (lnk : Option ℕ) : ℕ → List Ep → List Ep
  | _, [] => []
  | j, ep :: rest =>
    (if lo ≤ j ∧ j < hi then { ep with link := lnk } else ep) ::
      setLinksFrom lo hi lnk (j + 1) rest

/-- Update the `link` field (the mapped `pvertex`) of the beach-line
entries at positions `lo ≤ j < hi`. -/
def blSetLinks (lo hi : ℕ) (lnk : Option ℕ) (bl : List Ep) : List Ep :=
  setLinksFrom lo hi lnk 0 bl

/-- `events_.insert({v, lnk})` (`std::map` ordered-insert semantics with
`event_less` over the vertex values), fused with the caller's
`if (!e.second) { e.first->second = noep; }` (sweepline.hpp:415-418): on
an equivalent existing key the existing entry's mapped value is set to
`noep` (`none`); otherwise the new entry is placed in order. -/
def evsInsertOrNoep (less : ℕ → ℕ → Bool) : List Ev → ℕ → Option ℕ → List Ev
  | [], v, lnk => [⟨v, lnk⟩]
  | e :: es, v, lnk =>
    if less v e.v then ⟨v, lnk⟩ :: e :: es
    else if less e.v v then e :: evsInsertOrNoep less es v lnk
    else ⟨e.v, none⟩ :: es

/-- `events_.find(v)`: the entry whose key is equivalent to `v` under
`event_less`. -/
def evsFind (less : ℕ → ℕ → Bool) (evs : List Ev) (v : ℕ) : Option Ev :=
  evs.find? (fun e => !less v e.v && !less e.v v)

/-- `events_.erase(e)`: removes (the first copy of) the entry `e`. -/
def evsErase (evs : List Ev) (e : Ev) : List Ev :=
  evs.erase e

/-- `make_vertex` (sweepline.hpp:331-358): `none` when the guard
`eps*eps < G` fails, otherwise the id under which the circumcircle was
inserted into (or found in) the vertex container, with the new state. -/
def makeVertex (sq : ℚ → ℚ) (eps : ℚ) (st : VD) (a b c : Pt) : Option ℕ × VD :=
  if eps * eps < areaG a b c then
    let r := vertsInsert eps st (circumVtx sq a b c)
    (some r.1, r.2)
  else
    (none, st)

/-- `endpoint_range` (sweepline.hpp:360-371): the position range
`[lo, hi)` of beach-line entries associated with vertex `v`; from the
cross-link when present, otherwise by transparent `equal_range`. -/
def endpointRange (sq : ℚ → ℚ) (eps : ℚ) (pts : List Pt) (st : VD)
    (lnk : Option ℕ) (v : ℕ) : ℕ × ℕ :=
  match lnk with
  | none =>
    let w := getVtx st v
    (blLowerBound (fun ep => epLtV sq eps pts ep w) st.bl,
     blUpperBound (fun ep => vLtEp sq eps pts w ep) st.bl)
  | some i =>
    let j := blIdxOf st.bl i
    (j - 1, j + 1)

/-- `delete_event` (sweepline.hpp:373-384): erase the event keyed by
`v`, null the cross-links of its endpoint range, erase the vertex. -/
def deleteEvent (sq : ℚ → ℚ) (eps : ℚ) (pts : List Pt) (st : VD) (v : ℕ) : VD :=
  match evsFind (fun i j => eventLess eps (getVtx st i) (getVtx st j)) st.evs v with
  | none => st
  | some e =>
    let lr := endpointRange sq eps pts st e.link v
    let st := { st with evs := evsErase st.evs e }
    let st := { st with bl := blSetLinks lr.1 lr.2 none st.bl }
    vertsErase st v

/-- `check_event` (sweepline.hpp:386-421) on the adjacent beach-line
entries at positions `li` and `ri = li + 1`. -/
def checkEvent (sq : ℚ → ℚ) (eps : ℚ) (pts : List Pt) (st : VD) (li ri : ℕ) : VD :=
  let ll := st.bl.getD li default
  let rr := st.bl.getD ri default
  let mv := makeVertex sq eps st (sitePt pts ll.l) (sitePt pts ll.r) (sitePt pts rr.r)
  match mv.1 with
  | none => mv.2
  | some v =>
    let st := mv.2
    let install : VD → VD := fun st =>
      let a := st.bl.getD li default
      let st := { st with bl := st.bl.set li { a with link := some v } }
      let b := st.bl.getD ri default
      let st := { st with bl := st.bl.set ri { b with link := some v } }
      let evs2 := evsInsertOrNoep
        (fun i j => eventLess eps (getVtx st i) (getVtx st j)) st.evs v
        (some (st.bl.getD ri default).id)
      { st with evs := evs2 }
    match ll.link with
    | some w =>
      if eventLess eps (getVtx st v) (getVtx st w) then
        install (deleteEvent sq eps pts st w)
      else
        vertsErase st v
    | none =>
      match rr.link with
      | some w =>
        if eventLess eps (getVtx st v) (getVtx st w) then
          install (deleteEvent sq eps pts st w)
        else
          vertsErase st v
      | none => install st

/-- `begin_cell` (sweepline.hpp:276-318).  The two branches at
sweepline.hpp:311-317 (site not beyond all breakpoints) have empty
bodies in the source and are embedded as such. -/
def beginCell (sq : ℚ → ℚ) (eps : ℚ) (pts : List Pt) (st : VD) (p : ℕ) : VD :=
  let ci := cellsInsert eps pts st.cells p
  let st := { st with cells := ci.1 }
  let c := ci.2.1
  let pp := sitePt pts p
  let lo := blLowerBound (fun ep => epLtPt sq eps pts ep pp) st.bl
  let hi := blUpperBound (fun ep => ptLtEp sq eps pts pp ep) st.bl
  if lo = st.bl.length then
    if st.bl.isEmpty then
      match st.cells.head? with
      | none => st
      | some c0 =>
        if c = c0.1 then
          st
        else
          let lc := c0.1
          let eid := st.edges.length
          let st := { st with edges := st.edges ++ [Edge.mk lc p none none] }
          let st := { st with bl := [Ep.mk st.nextEpid lc c eid none],
                              nextEpid := st.nextEpid + 1 }
          let st := cellPushFront st lc eid
          cellPushBack st c eid
    else
      let l := st.bl.getLastD default
      let lc := l.r
      let eid := st.edges.length
      let st := { st with edges := st.edges ++ [Edge.mk lc p none none] }
      let n := st.bl.length
      let st := { st with bl := st.bl ++ [Ep.mk st.nextEpid lc c eid none],
                          nextEpid := st.nextEpid + 1 }
      let st := cellPushFront st lc eid
      let st := cellPushBack st c eid
      let st := if n - 1 ≠ 0 then checkEvent sq eps pts st (n - 2) (n - 1) else st
      checkEvent sq eps pts st (n - 1) n
  else
    if lo = hi then st else st

/-- The fold of `trunc_edge` over an endpoint range, as performed by the
loop of `finish_edges` (sweepline.hpp:465-467). -/
def truncFold (pts : List Pt) (vp : Pt) (v : ℕ) : List Ep → List Edge → List Edge
  | [], edges => edges
  | ep :: rest, edges =>
    let ed := edges.getD ep.e default
    truncFold pts vp v rest
      (edges.set ep.e (truncEdge (sitePt pts ed.l) (sitePt pts ed.r) vp ed v))

/-- `finish_edges` (sweepline.hpp:457-479) on the front event of the
queue (`std::cbegin(events_)`); the identity when the queue is empty
(the driver only calls it on a non-empty queue). -/
def finishEdges (sq : ℚ → ℚ) (eps : ℚ) (pts : List Pt) (st : VD) : VD :=
  match st.evs with
  | [] => st
  | e :: _ =>
    let v := e.v
    let vp := (getVtx st v).p
    let lr := endpointRange sq eps pts st e.link v
    let st := { st with evs := st.evs.tail }
    let lc := (st.bl.getD lr.1 default).l
    let rc := (st.bl.getD (lr.2 - 1) default).r
    let range := (st.bl.drop lr.1).take (lr.2 - lr.1)
    let st := { st with edges := truncFold pts vp v range st.edges }
    let st := { st with bl := st.bl.take lr.1 ++ st.bl.drop lr.2 }
    let eid := st.edges.length
    let st := { st with edges := st.edges ++ [Edge.mk lc rc (some v) none] }
    let st := { st with bl := st.bl.take lr.1 ++ Ep.mk st.nextEpid lc rc eid none :: st.bl.drop lr.1,
                        nextEpid := st.nextEpid + 1 }
    let st := cellPushFront st lc eid
    let st := cellPushBack st rc eid
    let st := if lr.1 ≠ 0 then checkEvent sq eps pts st (lr.1 - 1) lr.1 else st
    if lr.1 + 1 ≠ st.bl.length then checkEvent sq eps pts st lr.1 (lr.1 + 1) else st

/-- The inner event loop of `sweepline::operator()` (sweepline.hpp:496-502):
fire pending events while the front one is `prior` to the next site.
Structural recursion on an explicit fuel; the loop body is `finish_edges`
on the front event. -/
def fireWhile (sq : ℚ → ℚ) (eps : ℚ) (pts : List Pt) :
    ℕ → VD → Pt → VD
  | 0, st, _ => st
  | fuel + 1, st, p =>
    match st.evs with
    | [] => st
    | e :: _ =>
      if prior eps (getVtx st e.v) p then
        fireWhile sq eps pts fuel (finishEdges sq eps pts st) p
      else
        st

/-- One iteration of the site loop of `sweepline::operator()`
(sweepline.hpp:495-504): fire prior events, then `begin_cell(p)`. -/
def processSite (sq : ℚ → ℚ) (eps : ℚ) (pts : List Pt) (fuel : ℕ) (st : VD) (p : ℕ) : VD :=
  beginCell sq eps pts (fireWhile sq eps pts fuel st (sitePt pts p)) p

/-- The drain loop of `sweepline::operator()` (sweepline.hpp:505-507). -/
def drainEvents (sq : ℚ → ℚ) (eps : ℚ) (pts : List Pt) : ℕ → VD → VD
  | 0, st => st
  | fuel + 1, st =>
    match st.evs with
    | [] => st
    | _ :: _ => drainEvents sq eps pts fuel (finishEdges sq eps pts st)

/-- `sweepline::operator()(l, r)` (sweepline.hpp:491-508) on the whole
input sequence, from the freshly constructed state. -/
def sweepRun (sq : ℚ → ℚ) (eps : ℚ) (pts : List Pt) (fuel : ℕ) : VD :=
  drainEvents sq eps pts fuel
    ((List.range pts.length).foldl (processSite sq eps pts fuel) emptyVD)

/-- The coefficient `a` computed by the quadratic branch of `intersect`
(sweepline.hpp:208-209), as a function of the foci and the directrix. -/
def quadA (l r : Pt) (d : ℚ) : ℚ :=
  let ld := (l.x - d) + (l.x - d)
  let rd := (r.x - d) + (r.x - d)
  let a0 := (ld - rd) / (ld * rd)
  a0 + a0

/-- The value `b` computed by `intersect` (sweepline.hpp:194-195,205);
the source comments it as the negated linear coefficient. -/
def quadB (l r : Pt) (d : ℚ) : ℚ :=
  r.y / (r.x - d) - l.y / (l.x - d)

/-- The value `c` computed by `intersect` (sweepline.hpp:199-206). -/
def quadC (l r : Pt) (d : ℚ) : ℚ :=
  let ld := (l.x - d) + (l.x - d)
  let rd := (r.x - d) + (r.x - d)
  (r.x * r.x + r.y * r.y - d * d) / rd - (l.x * l.x + l.y * l.y - d * d) / ld

/-- The root the quadratic branch of `intersect` does *not* return:
`(b - sqrt D) / a` where the source returns `(b + sqrt D) / a`. -/
def intersectOther (sq : ℚ → ℚ) (l r : Pt) (d : ℚ) : ℚ :=
  (quadB l r d - sq (intersectD l r d)) / quadA l r d

/-- The states a `sweepline` instance can be in: the freshly
constructed state, and everything obtainable by the two operations the
driver `operator()` performs — `begin_cell` on some site and
`finish_edges` on the front event.  (The driver's `fireWhile` loop and
drain loop are compositions of the `fire` step.) -/
inductive Reach (sq : ℚ → ℚ) (eps : ℚ) (pts : List Pt) : VD → Prop
  | init : Reach sq eps pts emptyVD
  | site (st : VD) (p : ℕ) : Reach sq eps pts st →
      Reach sq eps pts (beginCell sq eps pts st p)
  | fire (st : VD) : Reach sq eps pts st →
      Reach sq eps pts (finishEdges sq eps pts st)

/-- The edge ids carried by the beach line. -/
def blEdges (st : VD) : List ℕ :=
  st.bl.map (fun ep => ep.e)

/-- Beach-line/edge consistency: every beach-line entry carries a
distinct in-range edge whose `e` endpoint is still unset (a growing
edge). -/
def BeachInv (st : VD) : Prop :=
  (∀ i ∈ blEdges st, i < st.edges.length ∧ (st.edges.getD i default).e = none)
  ∧ (blEdges st).Pairwise (fun i j => i ≠ j)

/-- Vertex-container well-formedness (`std::set` semantics): no two
stored vertices are equivalent under the container's comparator. -/
def VertsInv (eps : ℚ) (st : VD) : Prop :=
  st.verts.Pairwise
    (fun a b => vertexLess eps a.2 b.2 = true ∨ vertexLess eps b.2 a.2 = true)

/-- Every `trunc_edge` call performed by folding the `finish_edges`
loop over `range` meets an edge that is not yet truncated on its `e`
side (in particular never an edge with both endpoints set). -/
def TruncOk (pts : List Pt) (vp : Pt) (v : ℕ) : List Ep → List Edge → Prop
  | [], _ => True
  | ep :: rest, edges =>
    (edges.getD ep.e default).e = none ∧
      (let ed := edges.getD ep.e default
       TruncOk pts vp v rest
         (edges.set ep.e (truncEdge (sitePt pts ed.l) (sitePt pts ed.r) vp ed v)))

/-- Input of the interior-site scenario: the third site lies below the
only breakpoint, so its `equal_range` lookup is not past-the-end. -/
def ptsIns : List Pt := [⟨0, 0⟩, ⟨3, 0⟩, ⟨4, -5⟩]

/-- Square-root oracle for `ptsIns`: the only call the run makes is on
the discriminant `9/4`, whose exact root is `3/2`. -/
def sqIns : ℚ → ℚ := fun q => if q = 9 / 4 then 3 / 2 else 0

/-- The state of the `ptsIns` run after its three site events. -/
def stIns : VD := (List.range 3).foldl (processSite sqIns (1 / 4) ptsIns 10) emptyVD

/-- Input of the duplicate-vertex scenario: `(0,0)`, `(9,12)`, `(16,12)`
lie on the circle of center `(25/2, 0)` and radius `25/2` (pairwise
distances 15, 7, 20), and the fourth site arrives before the circle's
touch abscissa `25`. -/
def ptsDup : List Pt := [⟨0, 0⟩, ⟨9, 12⟩, ⟨16, 12⟩, ⟨17, 20⟩]

/-- Square-root oracle for `ptsDup`: exact on the four `make_vertex`
arguments (`225`, `49`, `400`, `28224`); on the three intersection
discriminants the run compares with huge slack and the oracle returns a
close rational approximation. -/
def sqDup : ℚ → ℚ := fun q =>
  if q = 225 then 15
  else if q = 49 then 7
  else if q = 400 then 20
  else if q = 28224 then 168
  else if q = 1575 / 784 then 17 / 12
  else if q = 225 / 136 then 9 / 7
  else if q = 49 / 8 then 99 / 40
  else 0

/-- The state of the `ptsDup` run after its four site events (no circle
event fires before any of them). -/
def stDup : VD := (List.range 4).foldl (processSite sqDup (1 / 8) ptsDup 10) emptyVD

/-- The state in the middle of `begin_cell((17,20))` of the `ptsDup`
run, at the moment `check_event(prev(l), l)` (sweepline.hpp:306-308) is
about to re-check the breakpoint pair whose circle event is already
queued: the circumcircle of the first three sites is stored under id 0
and its event is pending with the cross-link to beach-line entry 1. -/
def stMid : VD :=
  { nextVid := 1
    nextEpid := 3
    verts := [(0, ⟨⟨25 / 2, 0⟩, 25 / 2⟩)]
    edges := [⟨0, 1, none, none⟩, ⟨1, 2, none, none⟩, ⟨2, 3, none, none⟩]
    cells := [(0, [0]), (1, [1, 0]), (2, [2, 1]), (3, [2])]
    bl := [⟨0, 0, 1, 0, some 0⟩, ⟨1, 1, 2, 1, some 0⟩, ⟨2, 2, 3, 2, none⟩]
    evs := [⟨0, some 1⟩] }

/-- Input of the tolerance-tie scenario: as `ptsDup` but the fourth site
has abscissa `401/16 = 25 + 1/16`, within the tolerance `1/8` of the
pending event's touch abscissa `25` but not exactly equal to it plus
`eps`. -/
def ptsTie : List Pt := [⟨0, 0⟩, ⟨9, 12⟩, ⟨16, 12⟩, ⟨401 / 16, 20⟩]

/-- The state of the `ptsTie` run after its three site events. -/
def stTie : VD := (List.range 3).foldl (processSite sqDup (1 / 8) ptsTie 10) emptyVD

/-- Square-root oracle for the thin-triangle triple of the circumradius
assertion scenario: all three side lengths are exact rationals. -/
def sqThin : ℚ → ℚ := fun q =>
  if q = 169 / 256 then 13 / 16 else if q = 9 / 4 then 3 / 2 else 0

/-- The state shared by all three scenario runs after their first site
event: one empty cell, nothing else. -/
def stOne : VD := ⟨0, 0, [], [], [(0, [])], [], []⟩

/-- The state shared by the `ptsDup` and `ptsTie` runs after their
three first site events: one stored vertex (the circumcircle of the
three sites), two breakpoints cross-linked to its pending event. -/
def stThree : VD :=
  ⟨1, 2, [(0, ⟨⟨25 / 2, 0⟩, 25 / 2⟩)],
   [⟨0, 1, none, none⟩, ⟨1, 2, none, none⟩],
   [(0, [0]), (1, [1, 0]), (2, [1])],
   [⟨0, 0, 1, 0, some 0⟩, ⟨1, 1, 2, 1, some 0⟩],
   [⟨0, some 1⟩]⟩

/-- The state of `begin_cell((16,12))` in the `ptsDup`/`ptsTie` runs
just before its final `check_event` call: the second breakpoint and its
growing edge exist but no circle event has been checked yet. -/
def stPre : VD :=
  ⟨0, 2, [],
   [⟨0, 1, none, none⟩, ⟨1, 2, none, none⟩],
   [(0, [0]), (1, [1, 0]), (2, [1])],
   [⟨0, 0, 1, 0, none⟩, ⟨1, 1, 2, 1, none⟩],
   []⟩

/-- `stPre` right after `make_vertex` has stored the circumcircle of
the three sites under id 0. -/
def stPreV : VD :=
  ⟨1, 2, [(0, ⟨⟨25 / 2, 0⟩, 25 / 2⟩)],
   [⟨0, 1, none, none⟩, ⟨1, 2, none, none⟩],
   [(0, [0]), (1, [1, 0]), (2, [1])],
   [⟨0, 0, 1, 0, none⟩, ⟨1, 1, 2, 1, none⟩],
   []⟩

/-- The final state of the `ptsIns` run: the third site's cell was
created empty and nothing else changed. -/
def stInsEnd : VD :=
  ⟨0, 1, [], [⟨0, 1, none, none⟩], [(0, [0]), (1, [0]), (2, [])],
   [⟨0, 0, 1, 0, none⟩], []⟩

/-- The state of the `ptsDup` run after its four site events: the
vertex container is empty while an event keyed by the erased vertex 0
is still queued, cross-linked from beach-line entries 0 and 1. -/
def stDupEnd : VD :=
  ⟨1, 3, [],
   [⟨0, 1, none, none⟩, ⟨1, 2, none, none⟩, ⟨2, 3, none, none⟩],
   [(0, [0]), (1, [1, 0]), (2, [2, 1]), (3, [2])],
   [⟨0, 0, 1, 0, some 0⟩, ⟨1, 1, 2, 1, some 0⟩, ⟨2, 2, 3, 2, none⟩],
   [⟨0, some 1⟩]⟩

/-- The conjunction of the beach-line and vertex-container invariants. -/
def SweepInv (eps : ℚ) (st : VD) : Prop := BeachInv st ∧ VertsInv eps st

/-- The expected final state of a run on the two sites `(0,0)`, `(1,0)`:
no vertex, one edge between the two sites with both endpoints unbound,
each cell holding exactly that edge, empty beach-line bookkeeping apart
from the single breakpoint, no pending event. -/
def twoSitesOut : VD :=
  { nextVid := 0
    nextEpid := 1
    verts := []
    edges := [⟨0, 1, none, none⟩]
    cells := [(0, [0]), (1, [0])]
    bl := [⟨0, 0, 1, 0, none⟩]
    evs := [] }


-- ## Helper lemmas

theorem getD_append_left (l l' : List Edge) (i : ℕ) (d : Edge) (h : i < l.length) :
    (l ++ l').getD i d = l.getD i d := by
  simp [List.getD, List.getElem?_append_left h]

theorem getD_append_len (l : List Edge) (a d : Edge) :
    (l ++ [a]).getD l.length d = a := by
  simp [List.getD, List.getElem?_append_right (Nat.le_refl _)]

theorem getD_set_ne (l : List Edge) (i j : ℕ) (a d : Edge) (h : i ≠ j) :
    (l.set j a).getD i d = l.getD i d := by
  simp [List.getD, List.getElem?_set_ne (Ne.symm h)]

theorem setLinksFrom_map_e (lo hi : ℕ) (lnk : Option ℕ) :
    ∀ (j : ℕ) (bl : List Ep),
      (setLinksFrom lo hi lnk j bl).map (fun ep => ep.e) = bl.map (fun ep => ep.e) := by
  intro j bl
  induction bl generalizing j with
  | nil => rfl
  | cons ep rest ih =>
    simp only [setLinksFrom, List.map_cons, ih]
    split <;> rfl

theorem set_getD_self_nat (l : List ℕ) (n : ℕ) (d : ℕ) : l.set n (l.getD n d) = l := by
  induction l generalizing n with
  | nil => rfl
  | cons a t ih =>
    cases n with
    | zero => simp [List.getD]
    | succ m =>
      have h : (a :: t).getD (m + 1) d = t.getD m d := by simp [List.getD]
      rw [h, List.set_cons_succ, ih]

theorem set_link_map_e (bl : List Ep) (i : ℕ) (lnk : Option ℕ) :
    ((bl.set i { bl.getD i default with link := lnk }).map (fun ep => ep.e)) =
      bl.map (fun ep => ep.e) := by
  induction bl generalizing i with
  | nil => rfl
  | cons ep rest ih =>
    cases i with
    | zero => simp [List.getD]
    | succ n =>
      have hg : (ep :: rest).getD (n + 1) default = rest.getD n default := by
        simp [List.getD]
      rw [hg, List.set_cons_succ, List.map_cons, List.map_cons, ih n]

theorem vertsInsert_snd_bl (eps : ℚ) (st : VD) (v : Vtx) :
    (vertsInsert eps st v).2.bl = st.bl ∧ (vertsInsert eps st v).2.edges = st.edges := by
  unfold vertsInsert
  split <;> exact ⟨rfl, rfl⟩

theorem vertsInsert_pairwise (eps : ℚ) (st : VD) (v : Vtx) :
    VertsInv eps st → VertsInv eps (vertsInsert eps st v).2 := by
  intro h
  unfold vertsInsert
  split
  · exact h
  · rename_i hfind
    unfold VertsInv at h ⊢
    rw [List.pairwise_append]
    refine ⟨h, List.pairwise_singleton _ _, ?_⟩
    intro a ha b hb
    rw [List.mem_singleton] at hb
    subst hb
    have hor : vertexLess eps v a.2 = true ∨ vertexLess eps a.2 v = true := by
      have hfa := List.find?_eq_none.mp hfind a ha
      by_contra hc
      push_neg at hc
      simp only [Bool.not_eq_true] at hc
      exact hfa (by simp [hc.1, hc.2])
    rcases hor with hv | hv
    · right; exact hv
    · left; exact hv

theorem vertsErase_pairwise (eps : ℚ) (st : VD) (i : ℕ) :
    VertsInv eps st → VertsInv eps (vertsErase st i) := by
  intro h
  exact List.Pairwise.sublist (List.filter_sublist _) h

theorem makeVertex_snd_bl (sq : ℚ → ℚ) (eps : ℚ) (st : VD) (a b c : Pt) :
    (makeVertex sq eps st a b c).2.bl = st.bl ∧
      (makeVertex sq eps st a b c).2.edges = st.edges := by
  unfold makeVertex
  split
  · exact vertsInsert_snd_bl eps st _
  · exact ⟨rfl, rfl⟩

theorem makeVertex_inv (sq : ℚ → ℚ) (eps : ℚ) (st : VD) (a b c : Pt) :
    SweepInv eps st → SweepInv eps (makeVertex sq eps st a b c).2 := by
  intro h
  constructor
  · unfold BeachInv blEdges
    rw [(makeVertex_snd_bl sq eps st a b c).1, (makeVertex_snd_bl sq eps st a b c).2]
    exact h.1
  · unfold makeVertex
    split
    · exact vertsInsert_pairwise eps st _ h.2
    · exact h.2

theorem deleteEvent_inv (sq : ℚ → ℚ) (eps : ℚ) (pts : List Pt) (st : VD) (v : ℕ) :
    SweepInv eps st → SweepInv eps (deleteEvent sq eps pts st v) := by
  intro h
  unfold deleteEvent
  split
  · exact h
  · constructor
    · have h1 := h.1
      unfold BeachInv blEdges at h1 ⊢
      simp only [vertsErase, blSetLinks, setLinksFrom_map_e]
      exact h1
    · exact vertsErase_pairwise eps _ v h.2

theorem beachInv_transfer (st st' : VD)
    (hbl : st'.bl.map (fun ep => ep.e) = st.bl.map (fun ep => ep.e))
    (hed : st'.edges = st.edges) (h : BeachInv st) : BeachInv st' := by
  unfold BeachInv blEdges at h ⊢
  rw [hbl, hed]
  exact h

theorem checkEvent_inv (sq : ℚ → ℚ) (eps : ℚ) (pts : List Pt) (st : VD) (li ri : ℕ) :
    SweepInv eps st → SweepInv eps (checkEvent sq eps pts st li ri) := by
  intro h
  have hmk := makeVertex_inv sq eps st (sitePt pts (st.bl.getD li default).l)
    (sitePt pts (st.bl.getD li default).r) (sitePt pts (st.bl.getD ri default).r) h
  unfold checkEvent
  simp only []
  split
  · exact hmk
  · rename_i v hv
    have hins : ∀ st0 : VD, SweepInv eps st0 →
        ∀ st1 : VD, st1.verts = st0.verts → st1.edges = st0.edges →
          st1.bl.map (fun ep => ep.e) = st0.bl.map (fun ep => ep.e) →
          SweepInv eps st1 := by
      intro st0 h0 st1 hv1 he1 hbl1
      constructor
      · exact beachInv_transfer st0 st1 hbl1 he1 h0.1
      · unfold VertsInv
        rw [hv1]
        exact h0.2
    split
    · rename_i w hw
      split
      · exact hins _ (deleteEvent_inv sq eps pts _ w hmk) _ rfl rfl
          (by simp only [set_link_map_e])
      · constructor
        · exact beachInv_transfer _ _ rfl rfl hmk.1
        · exact vertsErase_pairwise eps _ v hmk.2
    · split
      · rename_i w hw
        split
        · exact hins _ (deleteEvent_inv sq eps pts _ w hmk) _ rfl rfl
            (by simp only [set_link_map_e])
        · constructor
          · exact beachInv_transfer _ _ rfl rfl hmk.1
          · exact vertsErase_pairwise eps _ v hmk.2
      · exact hins _ hmk _ rfl rfl (by simp only [set_link_map_e])

theorem beachInv_append (st st' : VD) (ed : Edge) (ep : Ep)
    (hed : st'.edges = st.edges ++ [ed]) (hbl : st'.bl = st.bl ++ [ep])
    (he : ed.e = none) (hp : ep.e = st.edges.length) (h : BeachInv st) :
    BeachInv st' := by
  unfold BeachInv blEdges at h ⊢
  rw [hed, hbl, List.map_append]
  constructor
  · intro i hi
    rcases List.mem_append.mp hi with hi | hi
    · have h1 := h.1 i hi
      constructor
      · calc i < st.edges.length := h1.1
          _ ≤ (st.edges ++ [ed]).length := by simp
      · rw [getD_append_left _ _ _ _ h1.1]
        exact h1.2
    · simp only [List.map_cons, List.map_nil, List.mem_singleton] at hi
      subst hi
      rw [hp, getD_append_len]
      exact ⟨by simp, he⟩
  · rw [List.pairwise_append]
    refine ⟨h.2, List.pairwise_singleton _ _, ?_⟩
    intro a ha b hb
    simp only [List.map_cons, List.map_nil, List.mem_singleton] at hb
    subst hb
    rw [hp]
    exact Nat.ne_of_lt (h.1 a ha).1

theorem beachInv_single (st st' : VD) (ed : Edge) (ep : Ep)
    (hed : st'.edges = st.edges ++ [ed]) (hbl : st'.bl = [ep])
    (he : ed.e = none) (hp : ep.e = st.edges.length) :
    BeachInv st' := by
  unfold BeachInv blEdges
  rw [hed, hbl]
  constructor
  · intro i hi
    simp only [List.map_cons, List.map_nil, List.mem_singleton] at hi
    subst hi
    rw [hp, getD_append_len]
    exact ⟨by simp, he⟩
  · simp

theorem beginCell_inv (sq : ℚ → ℚ) (eps : ℚ) (pts : List Pt) (st : VD) (p : ℕ) :
    SweepInv eps st → SweepInv eps (beginCell sq eps pts st p) := by
  intro h
  have hc : ∀ cs : List (ℕ × List ℕ), SweepInv eps { st with cells := cs } := by
    intro cs
    exact ⟨beachInv_transfer st _ rfl rfl h.1, h.2⟩
  unfold beginCell
  simp only []
  split
  · split
    · split
      · exact hc _
      · split
        · exact hc _
        · rename_i hlo hemp c0 hc0 hne
          constructor
          · refine beachInv_single { st with cells := _ } _ _ _ rfl rfl rfl ?_
            simp
          · exact h.2
    · refine checkEvent_inv sq eps pts _ _ _ ?_
      split
      · refine checkEvent_inv sq eps pts _ _ _ ?_
        refine ⟨beachInv_append { st with cells := _ } _ _ _ rfl rfl rfl (by simp) ?_, h.2⟩
        exact beachInv_transfer st _ rfl rfl h.1
      · refine ⟨beachInv_append { st with cells := _ } _ _ _ rfl rfl rfl (by simp) ?_, h.2⟩
        exact beachInv_transfer st _ rfl rfl h.1
  · split
    · exact hc _
    · exact hc _

theorem truncFold_length (pts : List Pt) (vp : Pt) (v : ℕ) :
    ∀ (range : List Ep) (edges : List Edge),
      (truncFold pts vp v range edges).length = edges.length := by
  intro range
  induction range with
  | nil => intro edges; rfl
  | cons ep rest ih =>
    intro edges
    simp only [truncFold, ih, List.length_set]

theorem truncFold_getD_notmem (pts : List Pt) (vp : Pt) (v : ℕ) (i : ℕ) (d : Edge) :
    ∀ (range : List Ep) (edges : List Edge), (∀ ep ∈ range, ep.e ≠ i) →
      (truncFold pts vp v range edges).getD i d = edges.getD i d := by
  intro range
  induction range with
  | nil => intro edges _; rfl
  | cons ep rest ih =>
    intro edges hne
    simp only [truncFold]
    rw [ih _ (fun e he => hne e (List.mem_cons_of_mem _ he)),
      getD_set_ne _ _ _ _ _ (Ne.symm (hne ep (List.mem_cons_self _ _)))]

theorem bl_decomp (bl : List Ep) (lo hi : ℕ) (hlh : lo ≤ hi) :
    bl = bl.take lo ++ ((bl.drop lo).take (hi - lo) ++ bl.drop hi) := by
  have h1 : bl.drop hi = (bl.drop lo).drop (hi - lo) := by
    rw [List.drop_drop, Nat.add_sub_cancel' hlh]
  rw [h1, List.take_append_drop, List.take_append_drop]

theorem cut_sublist (bl : List Ep) (lo hi : ℕ) (hlh : lo ≤ hi) :
    (bl.take lo ++ bl.drop hi).Sublist bl := by
  have h1 : bl.drop hi = (bl.drop lo).drop (hi - lo) := by
    rw [List.drop_drop, Nat.add_sub_cancel' hlh]
  conv_rhs => rw [← List.take_append_drop lo bl]
  exact List.Sublist.append_left (h1 ▸ List.drop_sublist _ _) _

theorem surgery_beachInv (pts : List Pt) (vp : Pt) (v : ℕ) (st st' : VD)
    (lo hi : ℕ) (hlh : lo ≤ hi) (ed : Edge) (ep : Ep)
    (hedges : st'.edges =
      truncFold pts vp v ((st.bl.drop lo).take (hi - lo)) st.edges ++ [ed])
    (hbl : st'.bl = (st.bl.take lo ++ st.bl.drop hi).take lo ++
      ep :: (st.bl.take lo ++ st.bl.drop hi).drop lo)
    (he : ed.e = none)
    (hp : ep.e = st.edges.length)
    (h : BeachInv st) : BeachInv st' := by
  have hlen : (truncFold pts vp v ((st.bl.drop lo).take (hi - lo)) st.edges).length
      = st.edges.length := truncFold_length pts vp v _ _
  have hdec := bl_decomp st.bl lo hi hlh
  have hm : (st.bl.map (fun ep => ep.e)).Pairwise (fun i j => i ≠ j) := h.2
  have hcutsub : ((st.bl.take lo ++ st.bl.drop hi).map (fun ep => ep.e)).Sublist
      (st.bl.map (fun ep => ep.e)) :=
    List.Sublist.map _ (cut_sublist st.bl lo hi hlh)
  have hdisj : ∀ a ∈ st.bl.take lo ++ st.bl.drop hi,
      ∀ b ∈ (st.bl.drop lo).take (hi - lo), a.e ≠ b.e := by
    intro a ha b hb
    have hmdec : st.bl.map (fun ep => ep.e) =
        (st.bl.take lo).map (fun ep => ep.e) ++
          (((st.bl.drop lo).take (hi - lo)).map (fun ep => ep.e) ++
            (st.bl.drop hi).map (fun ep => ep.e)) := by
      conv_lhs => rw [hdec]
      simp [List.map_append]
    rw [hmdec] at hm
    rw [List.pairwise_append] at hm
    rcases List.mem_append.mp ha with ha | ha
    · exact hm.2.2 _ (List.mem_map_of_mem _ ha) _
        (List.mem_append.mpr (Or.inl (List.mem_map_of_mem _ hb)))
    · have h2 := hm.2.1
      rw [List.pairwise_append] at h2
      intro hab
      exact h2.2.2 _ (List.mem_map_of_mem _ hb) _ (List.mem_map_of_mem _ ha) hab.symm
  unfold BeachInv blEdges at h ⊢
  rw [hedges, hbl]
  constructor
  · intro i hi'
    simp only [List.map_append, List.map_cons] at hi'
    have hcase : i = ep.e ∨ i ∈ (st.bl.take lo ++ st.bl.drop hi).map (fun ep => ep.e) := by
      rcases List.mem_append.mp hi' with h1 | h1
      · right
        rw [List.map_take] at h1
        exact List.mem_of_mem_take h1
      · rcases List.mem_cons.mp h1 with h1 | h1
        · exact Or.inl h1
        · right
          rw [List.map_drop] at h1
          exact List.mem_of_mem_drop h1
    rcases hcase with hc | hc
    · subst hc
      rw [hp, ← hlen, getD_append_len]
      refine ⟨?_, he⟩
      simp [hlen, hp]
    · have hiorig : i ∈ st.bl.map (fun ep => ep.e) := hcutsub.mem hc
      have h1 := h.1 i hiorig
      have hne : ∀ epr ∈ (st.bl.drop lo).take (hi - lo), epr.e ≠ i := by
        intro epr hepr
        rcases List.mem_map.mp hc with ⟨a, ha, hae⟩
        intro hcontra
        exact hdisj a ha epr hepr (by rw [hae, hcontra])
      constructor
      · calc i < st.edges.length := h1.1
          _ ≤ _ := by simp [hlen]
      · rw [getD_append_left _ _ _ _ (by rw [hlen]; exact h1.1),
          truncFold_getD_notmem pts vp v i default _ _ hne]
        exact h1.2
  · simp only [List.map_append, List.map_cons]
    rw [List.map_take, List.map_drop,
      List.pairwise_middle (fun {x y} h => Ne.symm h), List.take_append_drop,
      List.pairwise_cons]
    constructor
    · intro j hj
      have hb := (h.1 j (hcutsub.mem hj)).1
      rw [hp]
      omega
    · exact hm.sublist hcutsub

theorem lb_le_ub (lt gt : Ep → Bool) (bl : List Ep)
    (hcons : ∀ ep, ¬(lt ep = true ∧ gt ep = true)) :
    blLowerBound lt bl ≤ blUpperBound gt bl := by
  induction bl with
  | nil => exact Nat.le_refl 0
  | cons ep rest ih =>
    unfold blLowerBound blUpperBound
    rcases Bool.eq_false_or_eq_true (lt ep) with hlt | hlt
    · have hgt : gt ep = false := by
        rcases Bool.eq_false_or_eq_true (gt ep) with hg | hg
        · exact absurd ⟨hlt, hg⟩ (hcons ep)
        · exact hg
      simp only [hlt, hgt, Bool.false_eq_true, if_true, if_false, ite_false, ite_true]
      exact Nat.succ_le_succ ih
    · simp [hlt]

theorem endpointRange_le (sq : ℚ → ℚ) (eps : ℚ) (pts : List Pt) (st : VD)
    (lnk : Option ℕ) (v : ℕ) (heps : 0 ≤ eps) :
    (endpointRange sq eps pts st lnk v).1 ≤ (endpointRange sq eps pts st lnk v).2 := by
  unfold endpointRange
  cases lnk with
  | none =>
    apply lb_le_ub
    intro ep hb
    unfold epLtV vLtEp at hb
    rw [decide_eq_true_eq, decide_eq_true_eq] at hb
    linarith [hb.1, hb.2]
  | some i => simp only []; omega

theorem ite_checkEvent_inv (sq : ℚ → ℚ) (eps : ℚ) (pts : List Pt)
    (c : Prop) [Decidable c] (st0 : VD) (i j : ℕ) (h : SweepInv eps st0) :
    SweepInv eps (if c then checkEvent sq eps pts st0 i j else st0) := by
  split
  · exact checkEvent_inv sq eps pts st0 i j h
  · exact h

theorem finishEdges_inv (sq : ℚ → ℚ) (eps : ℚ) (pts : List Pt) (st : VD)
    (heps : 0 ≤ eps) :
    SweepInv eps st → SweepInv eps (finishEdges sq eps pts st) := by
  intro h
  unfold finishEdges
  split
  · exact h
  · rename_i e rest hevs
    have hle := endpointRange_le sq eps pts st e.link e.v heps
    have hsurg : ∀ st5 : VD,
        st5.edges = truncFold pts (getVtx st e.v).p e.v
          ((st.bl.drop (endpointRange sq eps pts st e.link e.v).1).take
            ((endpointRange sq eps pts st e.link e.v).2 -
              (endpointRange sq eps pts st e.link e.v).1)) st.edges ++
          [⟨(st.bl.getD (endpointRange sq eps pts st e.link e.v).1 default).l,
            (st.bl.getD ((endpointRange sq eps pts st e.link e.v).2 - 1) default).r,
            some e.v, none⟩] →
        st5.verts = st.verts →
        st5.bl = ((st.bl.take (endpointRange sq eps pts st e.link e.v).1 ++
            st.bl.drop (endpointRange sq eps pts st e.link e.v).2).take
              (endpointRange sq eps pts st e.link e.v).1 ++
          ⟨st.nextEpid,
            (st.bl.getD (endpointRange sq eps pts st e.link e.v).1 default).l,
            (st.bl.getD ((endpointRange sq eps pts st e.link e.v).2 - 1) default).r,
            (truncFold pts (getVtx st e.v).p e.v
              ((st.bl.drop (endpointRange sq eps pts st e.link e.v).1).take
                ((endpointRange sq eps pts st e.link e.v).2 -
                  (endpointRange sq eps pts st e.link e.v).1)) st.edges).length,
            none⟩ ::
          (st.bl.take (endpointRange sq eps pts st e.link e.v).1 ++
            st.bl.drop (endpointRange sq eps pts st e.link e.v).2).drop
              (endpointRange sq eps pts st e.link e.v).1) →
        SweepInv eps st5 := by
      intro st5 hed hv hbl
      constructor
      · refine surgery_beachInv pts (getVtx st e.v).p e.v st st5
          (endpointRange sq eps pts st e.link e.v).1
          (endpointRange sq eps pts st e.link e.v).2 hle _ _ hed hbl rfl ?_ h.1
        simp [truncFold_length]
      · unfold VertsInv
        rw [hv]
        exact h.2
    exact ite_checkEvent_inv sq eps pts _ _ _ _
      (ite_checkEvent_inv sq eps pts _ _ _ _ (hsurg _ rfl rfl rfl))

theorem reach_sweepInv (sq : ℚ → ℚ) (eps : ℚ) (pts : List Pt) (st : VD)
    (heps : 0 ≤ eps) (h : Reach sq eps pts st) : SweepInv eps st := by
  induction h with
  | init =>
    constructor
    · exact ⟨fun i hi => absurd hi (List.not_mem_nil i), List.Pairwise.nil⟩
    · exact List.Pairwise.nil
  | site st p _ ih => exact beginCell_inv sq eps pts st p ih
  | fire st _ ih => exact finishEdges_inv sq eps pts st heps ih

theorem truncOk_of_fresh (pts : List Pt) (vp : Pt) (v : ℕ) :
    ∀ (range : List Ep) (edges : List Edge),
      (∀ ep ∈ range, (edges.getD ep.e default).e = none) →
      range.Pairwise (fun a b => a.e ≠ b.e) →
      TruncOk pts vp v range edges := by
  intro range
  induction range with
  | nil => intro edges _ _; trivial
  | cons ep rest ih =>
    intro edges hnone hpw
    rw [List.pairwise_cons] at hpw
    refine ⟨hnone ep (List.mem_cons_self _ _), ?_⟩
    refine ih _ ?_ hpw.2
    intro ep' hep'
    rw [getD_set_ne _ _ _ _ _ (Ne.symm (hpw.1 ep' hep'))]
    exact hnone ep' (List.mem_cons_of_mem _ hep')

theorem reach_trunc_ok (sq : ℚ → ℚ) (eps : ℚ) (pts : List Pt) (st : VD)
    (heps : 0 ≤ eps) (h : Reach sq eps pts st) :
    ∀ (vp : Pt) (v lo k : ℕ), TruncOk pts vp v ((st.bl.drop lo).take k) st.edges := by
  intro vp v lo k
  have hinv := reach_sweepInv sq eps pts st heps h
  have hsub : ((st.bl.drop lo).take k).Sublist st.bl :=
    ((st.bl.drop lo).take_sublist k).trans (st.bl.drop_sublist lo)
  refine truncOk_of_fresh pts vp v _ _ ?_ ?_
  · intro ep hep
    exact (hinv.1.1 ep.e (List.mem_map_of_mem _ (hsub.mem hep))).2
  · have := hinv.1.2
    unfold blEdges at this
    exact (List.pairwise_map.mp (this.sublist (hsub.map _)))


theorem onParabola_iff (f : Pt) (d x y : ℚ) :
    OnParabola f d ⟨x, y⟩ ↔ 2 * (f.x - d) * x = f.x ^ 2 + (y - f.y) ^ 2 - d ^ 2 := by
  unfold OnParabola
  constructor
  · intro h
    linear_combination -h
  · intro h
    linear_combination -h

theorem quadA_eq (l r : Pt) (d : ℚ) (hl : l.x ≠ d) (hr : r.x ≠ d) :
    quadA l r d = (l.x - r.x) / ((l.x - d) * (r.x - d)) := by
  unfold quadA
  have h1 : l.x - d ≠ 0 := sub_ne_zero.mpr hl
  have h2 : r.x - d ≠ 0 := sub_ne_zero.mpr hr
  have h3 : l.x - d + (l.x - d) ≠ 0 := by intro hc; exact h1 (by linarith)
  have h4 : r.x - d + (r.x - d) ≠ 0 := by intro hc; exact h2 (by linarith)
  rw [div_add_div_same, div_eq_div_iff (mul_ne_zero h3 h4) (mul_ne_zero h1 h2)]
  ring

theorem intersectD_eq (l r : Pt) (d : ℚ) :
    intersectD l r d = quadB l r d * quadB l r d - (quadA l r d + quadA l r d) * quadC l r d := rfl

theorem intersect_quad_branch (sq : ℚ → ℚ) (eps : ℚ) (l r : Pt) (d : ℚ)
    (hld : l.x + eps < d) (hrd : r.x + eps < d)
    (hx : (l.x + eps < r.x) ∨ (r.x + eps < l.x)) :
    intersect sq eps l r d = (quadB l r d + sq (intersectD l r d)) / quadA l r d := by
  unfold intersect
  rw [if_neg (by simpa using hld), if_neg (by simpa using hrd), if_pos hx]
  rfl

theorem exists_x_iff (l r : Pt) (d y : ℚ) (hl : l.x ≠ d) :
    (∃ x : ℚ, OnParabola l d ⟨x, y⟩ ∧ OnParabola r d ⟨x, y⟩) ↔
      (r.x - d) * (l.x ^ 2 + (y - l.y) ^ 2 - d ^ 2) =
        (l.x - d) * (r.x ^ 2 + (y - r.y) ^ 2 - d ^ 2) := by
  have hα : l.x - d ≠ 0 := sub_ne_zero.mpr hl
  constructor
  · rintro ⟨x, h1, h2⟩
    rw [onParabola_iff] at h1 h2
    linear_combination (l.x - d) * h2 - (r.x - d) * h1
  · intro hK
    refine ⟨(l.x ^ 2 + (y - l.y) ^ 2 - d ^ 2) / (2 * (l.x - d)), ?_, ?_⟩
    · rw [onParabola_iff]
      field_simp
    · rw [onParabola_iff]
      field_simp
      linear_combination 2 * hK

theorem quadB_poly (l r : Pt) (d : ℚ) (hα : l.x - d ≠ 0) (hβ : r.x - d ≠ 0) :
    quadB l r d * ((l.x - d) * (r.x - d)) = r.y * (l.x - d) - l.y * (r.x - d) := by
  unfold quadB
  field_simp
  ring

theorem intersectD_poly (l r : Pt) (d : ℚ) (hα : l.x - d ≠ 0) (hβ : r.x - d ≠ 0) :
    intersectD l r d * ((l.x - d) * (r.x - d)) ^ 2 =
      (r.y * (l.x - d) - l.y * (r.x - d)) ^ 2 -
        (l.x - r.x) * ((r.x ^ 2 + r.y ^ 2 - d ^ 2) * (l.x - d) -
          (l.x ^ 2 + l.y ^ 2 - d ^ 2) * (r.x - d)) := by
  unfold intersectD
  have h3 : l.x - d + (l.x - d) ≠ 0 := by intro hc; exact hα (by linarith)
  have h4 : r.x - d + (r.x - d) ≠ 0 := by intro hc; exact hβ (by linarith)
  field_simp
  ring

theorem intersect_roots_main (sq : ℚ → ℚ) (eps : ℚ) (l r : Pt) (d : ℚ)
    (h0 : 0 < eps) (hld : l.x + eps < d) (hrd : r.x + eps < d)
    (hx : (l.x + eps < r.x) ∨ (r.x + eps < l.x))
    (hs0 : 0 ≤ sq (intersectD l r d))
    (hs : sq (intersectD l r d) * sq (intersectD l r d) = intersectD l r d) :
    (∀ y : ℚ, (∃ x : ℚ, OnParabola l d ⟨x, y⟩ ∧ OnParabola r d ⟨x, y⟩) ↔
        (y = intersect sq eps l r d ∨ y = intersectOther sq l r d))
    ∧ (r.x + eps < l.x → intersectOther sq l r d ≤ intersect sq eps l r d)
    ∧ (l.x + eps < r.x → intersect sq eps l r d ≤ intersectOther sq l r d) := by
  have hα : l.x - d < 0 := by linarith
  have hβ : r.x - d < 0 := by linarith
  have hαn : l.x - d ≠ 0 := ne_of_lt hα
  have hβn : r.x - d ≠ 0 := ne_of_lt hβ
  have hlneq : l.x ≠ d := fun hc => hαn (by rw [hc]; ring)
  have hrneq : r.x ≠ d := fun hc => hβn (by rw [hc]; ring)
  have hαβ : 0 < (l.x - d) * (r.x - d) := mul_pos_of_neg_of_neg hα hβ
  have hxne : l.x - r.x ≠ 0 := by
    rcases hx with hx | hx
    · intro hc; linarith
    · intro hc; linarith
  set s := sq (intersectD l r d) with hsdef
  set M := r.y * (l.x - d) - l.y * (r.x - d) with hM
  set Q := (r.x ^ 2 + r.y ^ 2 - d ^ 2) * (l.x - d) -
    (l.x ^ 2 + l.y ^ 2 - d ^ 2) * (r.x - d) with hQ
  have hBp : quadB l r d * ((l.x - d) * (r.x - d)) = M := quadB_poly l r d hαn hβn
  have hsp : (s * ((l.x - d) * (r.x - d))) ^ 2 = M ^ 2 - (l.x - r.x) * Q := by
    have h1 : (s * ((l.x - d) * (r.x - d))) ^ 2 =
        (s * s) * ((l.x - d) * (r.x - d)) ^ 2 := by ring
    rw [h1, hs, intersectD_poly l r d hαn hβn]
  have hI : intersect sq eps l r d =
      (quadB l r d + s) * ((l.x - d) * (r.x - d)) / (l.x - r.x) := by
    rw [intersect_quad_branch sq eps l r d hld hrd hx,
      quadA_eq l r d hlneq hrneq, div_div_eq_mul_div, ← hsdef]
  have hO : intersectOther sq l r d =
      (quadB l r d - s) * ((l.x - d) * (r.x - d)) / (l.x - r.x) := by
    unfold intersectOther
    rw [quadA_eq l r d hlneq hrneq, div_div_eq_mul_div, ← hsdef]
  have hIT : (l.x - r.x) * intersect sq eps l r d = M + s * ((l.x - d) * (r.x - d)) := by
    rw [hI, mul_div_cancel₀ _ hxne]
    linear_combination hBp
  have hOT : (l.x - r.x) * intersectOther sq l r d = M - s * ((l.x - d) * (r.x - d)) := by
    rw [hO, mul_div_cancel₀ _ hxne]
    linear_combination hBp
  have key : ∀ y : ℚ,
      ((r.x - d) * (l.x ^ 2 + (y - l.y) ^ 2 - d ^ 2) -
        (l.x - d) * (r.x ^ 2 + (y - r.y) ^ 2 - d ^ 2)) * (l.x - r.x) ^ 2 =
      -(l.x - r.x) * (((l.x - r.x) * y - (M + s * ((l.x - d) * (r.x - d)))) *
        ((l.x - r.x) * y - (M - s * ((l.x - d) * (r.x - d))))) := by
    intro y
    linear_combination (r.x - l.x) * hsp
  refine ⟨?_, ?_, ?_⟩
  · intro y
    rw [exists_x_iff l r d y hlneq]
    constructor
    · intro hK
      have hz : ((l.x - r.x) * y - (M + s * ((l.x - d) * (r.x - d)))) *
          ((l.x - r.x) * y - (M - s * ((l.x - d) * (r.x - d)))) = 0 := by
        have h1 := key y
        rw [show (r.x - d) * (l.x ^ 2 + (y - l.y) ^ 2 - d ^ 2) -
            (l.x - d) * (r.x ^ 2 + (y - r.y) ^ 2 - d ^ 2) = 0 from by linarith [hK],
          zero_mul] at h1
        have h2 : -(l.x - r.x) ≠ 0 := neg_ne_zero.mpr hxne
        exact (mul_eq_zero.mp h1.symm).resolve_left h2
      rcases mul_eq_zero.mp hz with hz | hz
      · left
        have : (l.x - r.x) * y = (l.x - r.x) * intersect sq eps l r d := by
          rw [hIT]; linarith
        exact mul_left_cancel₀ hxne this
      · right
        have : (l.x - r.x) * y = (l.x - r.x) * intersectOther sq l r d := by
          rw [hOT]; linarith
        exact mul_left_cancel₀ hxne this
    · intro hy
      have hz : ((l.x - r.x) * y - (M + s * ((l.x - d) * (r.x - d)))) *
          ((l.x - r.x) * y - (M - s * ((l.x - d) * (r.x - d)))) = 0 := by
        rcases hy with hy | hy
        · subst hy
          rw [hIT]
          ring_nf
        · subst hy
          rw [hOT]
          ring_nf
      have h1 := key y
      rw [hz, mul_zero] at h1
      have h2 : (l.x - r.x) ^ 2 ≠ 0 := pow_ne_zero 2 hxne
      have h3 := mul_eq_zero.mp h1
      rcases h3 with h3 | h3
      · linarith [h3]
      · exact absurd h3 h2
  · intro hlr
    have hS : 0 ≤ s * ((l.x - d) * (r.x - d)) := mul_nonneg hs0 hαβ.le
    have hA : 0 < l.x - r.x := by linarith
    have h6 : (l.x - r.x) * (intersect sq eps l r d - intersectOther sq l r d) =
        s * ((l.x - d) * (r.x - d)) + s * ((l.x - d) * (r.x - d)) := by
      have h7 : (l.x - r.x) * (intersect sq eps l r d - intersectOther sq l r d) =
          (l.x - r.x) * intersect sq eps l r d -
            (l.x - r.x) * intersectOther sq l r d := by ring
      rw [h7, hIT, hOT]
      ring
    by_contra hcon
    push_neg at hcon
    have h8 : (l.x - r.x) * (intersect sq eps l r d - intersectOther sq l r d) < 0 :=
      mul_neg_of_pos_of_neg hA (by linarith)
    linarith [h6, hS, h8]
  · intro hlr
    have hS : 0 ≤ s * ((l.x - d) * (r.x - d)) := mul_nonneg hs0 hαβ.le
    have hA : l.x - r.x < 0 := by linarith
    have h6 : (l.x - r.x) * (intersect sq eps l r d - intersectOther sq l r d) =
        s * ((l.x - d) * (r.x - d)) + s * ((l.x - d) * (r.x - d)) := by
      have h7 : (l.x - r.x) * (intersect sq eps l r d - intersectOther sq l r d) =
          (l.x - r.x) * intersect sq eps l r d -
            (l.x - r.x) * intersectOther sq l r d := by ring
      rw [h7, hIT, hOT]
      ring
    by_contra hcon
    push_neg at hcon
    have h8 : (l.x - r.x) * (intersect sq eps l r d - intersectOther sq l r d) < 0 :=
      mul_neg_of_neg_of_pos hA (by linarith)
    linarith [h6, hS, h8]

theorem two_sites_run_helper (sq : ℚ → ℚ) (eps : ℚ) (fuel : ℕ) (h0 : 0 < eps) (h1 : eps < 1) :
    sweepRun sq eps [⟨0,0⟩, ⟨1,0⟩] (fuel + 1) = twoSitesOut := by
  have h01 : pointLess eps ⟨0,0⟩ ⟨1,0⟩ = true := by
    simp only [pointLess, tieLt, Bool.or_eq_true, decide_eq_true_eq]
    left; linarith
  have h10 : pointLess eps ⟨1,0⟩ ⟨0,0⟩ = false := by
    simp only [pointLess, tieLt, Bool.or_eq_false_iff, Bool.and_eq_false_iff,
      decide_eq_false_iff_not]
    constructor
    · linarith
    · left; intro h; linarith
  have step0 : processSite sq eps [⟨0,0⟩, ⟨1,0⟩] (fuel + 1) emptyVD 0 =
      ({ emptyVD with cells := [(0, [])] } : VD) := by
    simp only [processSite, fireWhile, emptyVD, beginCell, cellsInsert, sitePt,
      blLowerBound, blUpperBound, List.getD, List.isEmpty, List.head?]
    rfl
  have hs0 : sitePt [⟨0,0⟩, ⟨1,0⟩] 0 = ⟨0,0⟩ := rfl
  have hs1 : sitePt [⟨0,0⟩, ⟨1,0⟩] 1 = ⟨1,0⟩ := rfl
  have step1 : processSite sq eps [⟨0,0⟩, ⟨1,0⟩] (fuel + 1)
      ({ emptyVD with cells := [(0, [])] } : VD) 1 = twoSitesOut := by
    simp only [processSite, fireWhile, emptyVD, beginCell, cellsInsert, hs0, hs1, h01, h10]
    rfl
  simp only [sweepRun, List.range, List.range.loop, List.foldl, step0, step1]
  simp only [drainEvents, twoSitesOut]


theorem hy1 : hypotQ sqDup 9 12 = 15 := by norm_num [hypotQ, sqDup]

theorem hy2 : hypotQ sqDup 7 0 = 7 := by norm_num [hypotQ, sqDup]

theorem hy3 : hypotQ sqDup 16 12 = 20 := by norm_num [hypotQ, sqDup]

theorem cv1 : circumVtx sqDup ⟨0, 0⟩ ⟨9, 12⟩ ⟨16, 12⟩ = ⟨⟨25 / 2, 0⟩, 25 / 2⟩ := by
  simp only [circumVtx]
  norm_num
  rw [hy1, hy2, hy3]
  norm_num [circumradius, triangleV, sqDup]

theorem mv1 : makeVertex sqDup (1 / 8) stPre ⟨0, 0⟩ ⟨9, 12⟩ ⟨16, 12⟩ = (some 0, stPreV) := by
  simp only [makeVertex, vertsInsert, stPre]
  rw [if_pos (by norm_num [areaG])]
  rw [cv1]
  with_unfolding_all rfl

theorem ce1 : checkEvent sqDup (1 / 8) ptsDup stPre 0 1 = stThree := by
  have mv : makeVertex sqDup (1 / 8) stPre (sitePt ptsDup ((stPre.bl.getD 0 default).l))
      (sitePt ptsDup ((stPre.bl.getD 0 default).r)) (sitePt ptsDup ((stPre.bl.getD 1 default).r))
      = (some 0, stPreV) := by
    rw [show sitePt ptsDup ((stPre.bl.getD 0 default).l) = ⟨0, 0⟩ from by with_unfolding_all rfl,
      show sitePt ptsDup ((stPre.bl.getD 0 default).r) = ⟨9, 12⟩ from by with_unfolding_all rfl,
      show sitePt ptsDup ((stPre.bl.getD 1 default).r) = ⟨16, 12⟩ from by with_unfolding_all rfl]
    exact mv1
  simp only [checkEvent, mv]
  with_unfolding_all rfl

theorem ce1tie : checkEvent sqDup (1 / 8) ptsTie stPre 0 1 = stThree := by
  have mv : makeVertex sqDup (1 / 8) stPre (sitePt ptsTie ((stPre.bl.getD 0 default).l))
      (sitePt ptsTie ((stPre.bl.getD 0 default).r)) (sitePt ptsTie ((stPre.bl.getD 1 default).r))
      = (some 0, stPreV) := by
    rw [show sitePt ptsTie ((stPre.bl.getD 0 default).l) = ⟨0, 0⟩ from by with_unfolding_all rfl,
      show sitePt ptsTie ((stPre.bl.getD 0 default).r) = ⟨9, 12⟩ from by with_unfolding_all rfl,
      show sitePt ptsTie ((stPre.bl.getD 1 default).r) = ⟨16, 12⟩ from by with_unfolding_all rfl]
    exact mv1
  simp only [checkEvent, mv]
  with_unfolding_all rfl

theorem bc2 : beginCell sqDup (1 / 8) ptsDup twoSitesOut 2 = stThree := by
  have hlo : blLowerBound (fun ep => epLtPt sqDup (1 / 8) ptsDup ep (sitePt ptsDup 2))
      twoSitesOut.bl = 1 := by with_unfolding_all rfl
  simp only [beginCell]
  rw [hlo]
  with_unfolding_all exact ce1

theorem bc2tie : beginCell sqDup (1 / 8) ptsTie twoSitesOut 2 = stThree := by
  have hlo : blLowerBound (fun ep => epLtPt sqDup (1 / 8) ptsTie ep (sitePt ptsTie 2))
      twoSitesOut.bl = 1 := by with_unfolding_all rfl
  simp only [beginCell]
  rw [hlo]
  with_unfolding_all exact ce1tie

theorem insStep0 : processSite sqIns (1 / 4) ptsIns 10 emptyVD 0 = stOne := by
  with_unfolding_all rfl

theorem insStep1 : processSite sqIns (1 / 4) ptsIns 10 stOne 1 = twoSitesOut := by
  with_unfolding_all rfl

theorem insStep2 : processSite sqIns (1 / 4) ptsIns 10 twoSitesOut 2 = stInsEnd := by
  with_unfolding_all rfl

theorem insRun : stIns = stInsEnd := by
  show (List.range 3).foldl (processSite sqIns (1 / 4) ptsIns 10) emptyVD = stInsEnd
  rw [show List.range 3 = [0, 1, 2] from rfl]
  simp only [List.foldl_cons, List.foldl_nil]
  rw [insStep0, insStep1, insStep2]

theorem dupStep0 : processSite sqDup (1 / 8) ptsDup 10 emptyVD 0 = stOne := by
  with_unfolding_all rfl

theorem dupStep1 : processSite sqDup (1 / 8) ptsDup 10 stOne 1 = twoSitesOut := by
  with_unfolding_all rfl

theorem dupStep2 : processSite sqDup (1 / 8) ptsDup 10 twoSitesOut 2 = stThree := by
  have hfw : fireWhile sqDup (1 / 8) ptsDup 10 twoSitesOut (sitePt ptsDup 2) = twoSitesOut := by
    with_unfolding_all rfl
  show beginCell sqDup (1 / 8) ptsDup
    (fireWhile sqDup (1 / 8) ptsDup 10 twoSitesOut (sitePt ptsDup 2)) 2 = stThree
  rw [hfw, bc2]

theorem dupStep3 : processSite sqDup (1 / 8) ptsDup 10 stThree 3 = stDupEnd := by
  with_unfolding_all rfl

theorem dupRun : stDup = stDupEnd := by
  show (List.range 4).foldl (processSite sqDup (1 / 8) ptsDup 10) emptyVD = stDupEnd
  rw [show List.range 4 = [0, 1, 2, 3] from rfl]
  simp only [List.foldl_cons, List.foldl_nil]
  rw [dupStep0, dupStep1, dupStep2, dupStep3]

theorem tieStep0 : processSite sqDup (1 / 8) ptsTie 10 emptyVD 0 = stOne := by
  with_unfolding_all rfl

theorem tieStep1 : processSite sqDup (1 / 8) ptsTie 10 stOne 1 = twoSitesOut := by
  with_unfolding_all rfl

theorem tieStep2 : processSite sqDup (1 / 8) ptsTie 10 twoSitesOut 2 = stThree := by
  have hfw : fireWhile sqDup (1 / 8) ptsTie 10 twoSitesOut (sitePt ptsTie 2) = twoSitesOut := by
    with_unfolding_all rfl
  show beginCell sqDup (1 / 8) ptsTie
    (fireWhile sqDup (1 / 8) ptsTie 10 twoSitesOut (sitePt ptsTie 2)) 2 = stThree
  rw [hfw, bc2tie]

theorem tieRun : stTie = stThree := by
  show (List.range 3).foldl (processSite sqDup (1 / 8) ptsTie 10) emptyVD = stThree
  rw [show List.range 3 = [0, 1, 2] from rfl]
  simp only [List.foldl_cons, List.foldl_nil]
  rw [tieStep0, tieStep1, tieStep2]

theorem tieFire : fireWhile sqDup (1 / 8) ptsTie 10 stThree (sitePt ptsTie 3) = stThree := by
  with_unfolding_all rfl

theorem deleteEvent_edges (sq : ℚ → ℚ) (eps : ℚ) (pts : List Pt) (st : VD) (v : ℕ) :
    (deleteEvent sq eps pts st v).edges = st.edges := by
  unfold deleteEvent
  split
  · rfl
  · rfl

theorem checkEvent_edges (sq : ℚ → ℚ) (eps : ℚ) (pts : List Pt) (st : VD) (li ri : ℕ) :
    (checkEvent sq eps pts st li ri).edges = st.edges := by
  have hmk := (makeVertex_snd_bl sq eps st (sitePt pts (st.bl.getD li default).l)
    (sitePt pts (st.bl.getD li default).r) (sitePt pts (st.bl.getD ri default).r)).2
  unfold checkEvent
  simp only []
  split
  · exact hmk
  · split
    · split
      · rw [show ∀ st0 : VD, ({ st0 with
            bl := (st0.bl.set li { st0.bl.getD li default with link := _ }).set ri
              { (st0.bl.set li { st0.bl.getD li default with link := _ }).getD ri default with
                  link := _ }
            evs := _ } : VD).edges = st0.edges from fun _ => rfl]
        rw [deleteEvent_edges]
        exact hmk
      · exact hmk
    · split
      · split
        · rw [show ∀ st0 : VD, ({ st0 with
              bl := (st0.bl.set li { st0.bl.getD li default with link := _ }).set ri
                { (st0.bl.set li { st0.bl.getD li default with link := _ }).getD ri default with
                    link := _ }
              evs := _ } : VD).edges = st0.edges from fun _ => rfl]
          rw [deleteEvent_edges]
          exact hmk
        · exact hmk
      · exact hmk


theorem ite_checkEvent_edges (sq : ℚ → ℚ) (eps : ℚ) (pts : List Pt)
    (c : Prop) [Decidable c] (st0 : VD) (i j : ℕ) :
    (if c then checkEvent sq eps pts st0 i j else st0).edges = st0.edges := by
  split
  · exact checkEvent_edges sq eps pts st0 i j
  · rfl

theorem finishEdges_len (sq : ℚ → ℚ) (eps : ℚ) (pts : List Pt) (st : VD)
    (hne : st.evs ≠ []) :
    (finishEdges sq eps pts st).edges.length = st.edges.length + 1 := by
  unfold finishEdges
  split
  · rename_i heq
    exact absurd heq hne
  · rw [ite_checkEvent_edges, ite_checkEvent_edges]
    simp only [cellPushBack, cellPushFront, List.length_append, truncFold_length]
    rfl

theorem fireWhile_fires (sq : ℚ → ℚ) (eps : ℚ) (pts : List Pt) (n : ℕ) (st : VD)
    (p : Pt) (e : Ev) (rest : List Ev) (hevs : st.evs = e :: rest)
    (hp : prior eps (getVtx st e.v) p = true) :
    fireWhile sq eps pts (n + 1) st p =
      fireWhile sq eps pts n (finishEdges sq eps pts st) p := by
  simp only [fireWhile, hevs, hp, if_true]

theorem fireWhile_stops (sq : ℚ → ℚ) (eps : ℚ) (pts : List Pt) (n : ℕ) (st : VD)
    (p : Pt) (e : Ev) (rest : List Ev) (hevs : st.evs = e :: rest)
    (hp : prior eps (getVtx st e.v) p = false) :
    fireWhile sq eps pts (n + 1) st p = st := by
  simp only [fireWhile, hevs, hp]
  rfl

theorem fireWhile_stable_not_prior (sq : ℚ → ℚ) (eps : ℚ) (pts : List Pt) :
    ∀ (n : ℕ) (st : VD) (p : Pt),
      fireWhile sq eps pts (n + 1) st p = fireWhile sq eps pts n st p →
      (fireWhile sq eps pts n st p).evs = [] ∨
        prior eps (getVtx (fireWhile sq eps pts n st p)
          ((fireWhile sq eps pts n st p).evs.headD default).v) p = false := by
  intro n
  induction n with
  | zero =>
    intro st p hstab
    simp only [fireWhile] at hstab ⊢
    cases hevs : st.evs with
    | nil => exact Or.inl rfl
    | cons e rest =>
      rcases Bool.eq_false_or_eq_true (prior eps (getVtx st e.v) p) with hp | hp
      · exfalso
        rw [hevs] at hstab
        simp only [hp, if_true] at hstab
        have h2 := finishEdges_len sq eps pts st (by rw [hevs]; simp)
        rw [hstab] at h2
        omega
      · right
        simpa using hp
  | succ n ih =>
    intro st p hstab
    cases hevs : st.evs with
    | nil =>
      have h1 : fireWhile sq eps pts (n + 1) st p = st := by
        simp only [fireWhile, hevs]
      rw [h1]
      exact Or.inl hevs
    | cons e rest =>
      rcases Bool.eq_false_or_eq_true (prior eps (getVtx st e.v) p) with hp | hp
      · rw [fireWhile_fires sq eps pts n st p e rest hevs hp]
        refine ih (finishEdges sq eps pts st) p ?_
        rw [← fireWhile_fires sq eps pts n st p e rest hevs hp,
          ← fireWhile_fires sq eps pts (n + 1) st p e rest hevs hp]
        exact hstab
      · have h1 := fireWhile_stops sq eps pts n st p e rest hevs hp
        rw [h1, hevs]
        right
        simpa using hp


-- ## Claim theorems

/-- C1: The source's `begin_cell` is supposed to split the arc above a
site `p` whose transparent-comparator lookup is not past-the-end,
inserting two breakpoints carrying one new growing edge and enqueueing
circle checks.  The code's two branches for this case
(sweepline.hpp:311-317) are empty, so the run on `ptsIns` (whose third
site `(4,-5)` lies below the single breakpoint, lookup position 0 of 1)
leaves the beach line, edge list, vertex container and event queue
unchanged and only creates an empty cell: the beach line does not grow
by two breakpoints.  The final conjuncts certify the square-root oracle
is exact on the one discriminant the run evaluates. -/
theorem interior_site_event_is_noop :
    stIns.bl = twoSitesOut.bl
    ∧ stIns.bl.length = 1
    ∧ stIns.edges = twoSitesOut.edges
    ∧ stIns.verts = []
    ∧ stIns.evs = []
    ∧ cellEdges stIns 2 = []
    ∧ blLowerBound (fun ep => epLtPt sqIns (1 / 4) ptsIns ep (sitePt ptsIns 2))
        twoSitesOut.bl = 0
    ∧ twoSitesOut.bl.length = 1
    ∧ sqIns (9 / 4) = 3 / 2
    ∧ ((3 : ℚ) / 2) * (3 / 2) = 9 / 4 := by
  rw [insRun]
  refine ⟨by with_unfolding_all rfl, rfl, by with_unfolding_all rfl, rfl, rfl, ?_, ?_, rfl,
    by with_unfolding_all rfl, by with_unfolding_all decide⟩
  · with_unfolding_all rfl
  · with_unfolding_all rfl

/-- C2: After `begin_cell` of the fourth site of `ptsDup` completes,
the vertex container is empty while the event queue still holds the
event keyed by vertex 0 and no edge references any vertex — the claimed
equality between the stored-vertex set and (event keys ∪ edge
endpoints) is violated.  Before that site the run was healthy: vertex 0
was stored and queued.  (`begin_cell` re-checks the already-linked
breakpoint pair at sweepline.hpp:306-308; `make_vertex` returns the
existing queued vertex and `check_event`'s `vertices_.erase(v)` at
sweepline.hpp:400 erases it while its event stays queued.) -/
theorem vertex_container_desync :
    stThree.verts = [(0, ⟨⟨25 / 2, 0⟩, 25 / 2⟩)]
    ∧ stThree.evs = [⟨0, some 1⟩]
    ∧ stDup.verts = []
    ∧ stDup.evs = [⟨0, some 1⟩]
    ∧ stDup.edges = [⟨0, 1, none, none⟩, ⟨1, 2, none, none⟩, ⟨2, 3, none, none⟩] := by
  rw [dupRun]
  exact ⟨rfl, rfl, rfl, rfl, rfl⟩

/-- C3 counterexample: with tolerance `1/2`, the spec's band comparison
declares `(0,0)` strictly before `(0,1)` while the source's `point_less`
returns false — `point_less` is not the band comparison the claim
states. -/
theorem point_less_band_counterexample :
    specPointLess (1 / 2) ⟨0, 0⟩ ⟨0, 1⟩ = true
    ∧ pointLess (1 / 2) ⟨0, 0⟩ ⟨0, 1⟩ = false
    ∧ (0 : ℚ) < 1 / 2 := by
  with_unfolding_all decide

/-- C3 amended: for every tolerance ε > 0, `point_less` reports `l`
strictly before `r` exactly when `l.x + ε < r.x`, or `l.x + ε = r.x`
exactly and `l.y + ε < r.y` (the `std::tie` comparison of
`(l.x+ε, l.y+ε)` with `(r.x, r.y)`), not when the coordinates are
merely equal within the tolerance band. -/
theorem point_less_exact_characterization (eps : ℚ) (l r : Pt) (h : 0 < eps) :
    pointLess eps l r = true ↔
      (l.x + eps < r.x ∨ (l.x + eps = r.x ∧ l.y + eps < r.y)) := by
  simp [pointLess, tieLt]

/-- Witness for the amended C3 at ε = 1/2, l = (0,0), r = (1,0). -/
theorem point_less_exact_characterization_witness :
    pointLess (1 / 2) ⟨0, 0⟩ ⟨1, 0⟩ = true ↔
      ((0 : ℚ) + 1 / 2 < 1 ∨ ((0 : ℚ) + 1 / 2 = 1 ∧ (0 : ℚ) + 1 / 2 < 0)) :=
  point_less_exact_characterization (1 / 2) ⟨0, 0⟩ ⟨1, 0⟩ (by norm_num)

/-- C4 counterexample: in the `ptsTie` run the pending event's vertex
has touch abscissa 25, within the tolerance 1/8 of the fourth site's
abscissa 401/16 and with smaller ordinate, so the spec's rule says the
event fires before the site's arc is inserted; the driver's `prior`
returns false and the fire loop leaves the state untouched, so
`begin_cell` runs with the event still queued. -/
theorem driver_prior_tolerance_counterexample :
    stTie = stThree
    ∧ fireWhile sqDup (1 / 8) ptsTie 10 stThree (sitePt ptsTie 3) = stThree
    ∧ stThree.evs = [⟨0, some 1⟩]
    ∧ specPrior (1 / 8) (getVtx stThree 0) (sitePt ptsTie 3) = true
    ∧ prior (1 / 8) (getVtx stThree 0) (sitePt ptsTie 3) = false :=
  ⟨tieRun, tieFire, rfl, by with_unfolding_all decide, by with_unfolding_all decide⟩

/-- C4 amended: before inserting the arc for a site `p` the driver
fires pending circle events from the front of the queue while the front
event's vertex `v` satisfies the exact-tie comparison
`(v.x+R+ε, v.y+ε) < (p.x, p.y)` (`prior`); when the loop has reached
its fixed point, the queue is empty or the front event is not `prior`;
then the arc for `p` is inserted; after the last site the driver drains
the queue by firing the front event while one remains. -/
theorem driver_fire_loop_characterization :
    (∀ (sq : ℚ → ℚ) (eps : ℚ) (pts : List Pt) (fuel : ℕ) (st : VD) (p : ℕ),
        processSite sq eps pts fuel st p =
          beginCell sq eps pts (fireWhile sq eps pts fuel st (sitePt pts p)) p)
    ∧ (∀ (sq : ℚ → ℚ) (eps : ℚ) (pts : List Pt) (n : ℕ) (st : VD) (p : Pt)
          (e : Ev) (rest : List Ev), st.evs = e :: rest →
        prior eps (getVtx st e.v) p = true →
        fireWhile sq eps pts (n + 1) st p =
          fireWhile sq eps pts n (finishEdges sq eps pts st) p)
    ∧ (∀ (sq : ℚ → ℚ) (eps : ℚ) (pts : List Pt) (n : ℕ) (st : VD) (p : Pt)
          (e : Ev) (rest : List Ev), st.evs = e :: rest →
        prior eps (getVtx st e.v) p = false →
        fireWhile sq eps pts (n + 1) st p = st)
    ∧ (∀ (sq : ℚ → ℚ) (eps : ℚ) (pts : List Pt) (n : ℕ) (st : VD) (p : Pt),
        fireWhile sq eps pts (n + 1) st p = fireWhile sq eps pts n st p →
        (fireWhile sq eps pts n st p).evs = [] ∨
          prior eps (getVtx (fireWhile sq eps pts n st p)
            ((fireWhile sq eps pts n st p).evs.headD default).v) p = false)
    ∧ (∀ (sq : ℚ → ℚ) (eps : ℚ) (pts : List Pt) (fuel : ℕ),
        sweepRun sq eps pts fuel =
          drainEvents sq eps pts fuel
            ((List.range pts.length).foldl (processSite sq eps pts fuel) emptyVD))
    ∧ (∀ (sq : ℚ → ℚ) (eps : ℚ) (pts : List Pt) (n : ℕ) (st : VD)
          (e : Ev) (rest : List Ev), st.evs = e :: rest →
        drainEvents sq eps pts (n + 1) st =
          drainEvents sq eps pts n (finishEdges sq eps pts st))
    ∧ (∀ (sq : ℚ → ℚ) (eps : ℚ) (pts : List Pt) (n : ℕ) (st : VD),
        st.evs = [] → drainEvents sq eps pts (n + 1) st = st) := by
  refine ⟨fun _ _ _ _ _ _ => rfl, fireWhile_fires, fireWhile_stops,
    fireWhile_stable_not_prior, fun _ _ _ _ => rfl, ?_, ?_⟩
  · intro sq eps pts n st e rest hevs
    simp only [drainEvents, hevs]
  · intro sq eps pts n st hevs
    simp only [drainEvents, hevs]

/-- C5 counterexample: with tolerance 1/2, the vertex container's
comparator (centers) puts the vertex with center (0,0), radius 10
before the vertex with center (1,0), radius 0, while the point
comparator on the claimed key (x+R, y) and the event ordering both put
the second one strictly first — the container order is not the
(x+R, y) order and does not coincide with the event order. -/
theorem vertex_order_counterexample :
    vertexLess (1 / 2) ⟨⟨0, 0⟩, 10⟩ ⟨⟨1, 0⟩, 0⟩ = true
    ∧ pointLess (1 / 2) ⟨Vtx.tx ⟨⟨1, 0⟩, 0⟩, Vtx.ty ⟨⟨1, 0⟩, 0⟩⟩
        ⟨Vtx.tx ⟨⟨0, 0⟩, 10⟩, Vtx.ty ⟨⟨0, 0⟩, 10⟩⟩ = true
    ∧ eventLess (1 / 2) ⟨⟨1, 0⟩, 0⟩ ⟨⟨0, 0⟩, 10⟩ = true := by
  with_unfolding_all decide

/-- C5 amended: the vertex container's comparator is the tolerant
lexicographic comparison of the two *centers* `(p.x, p.y)` (with exact
ties), while the event queue is ordered by the same comparison of the
touch pairs `(x+R, y)`; the two orders are distinct in general. -/
theorem vertex_and_event_order_characterization :
    ∀ (eps : ℚ) (l r : Vtx),
      (vertexLess eps l r = true ↔
        (l.p.x + eps < r.p.x ∨ (l.p.x + eps = r.p.x ∧ l.p.y + eps < r.p.y)))
      ∧ (eventLess eps l r = true ↔
        (l.p.x + l.R + eps < r.p.x + r.R ∨
          (l.p.x + l.R + eps = r.p.x + r.R ∧ l.p.y + eps < r.p.y))) := by
  intro eps l r
  constructor
  · simp [vertexLess, pointLess, tieLt]
  · simp [eventLess, tieLt, Vtx.tx, Vtx.ty]

/-- C6 counterexample: for foci (0,0), (3,0) and directrix 4 (general
quadratic case, tolerance 1/4, exact square root 3/2 of the
discriminant), `intersect` returns −2 although (3/2, 2) is a common
point of the two parabolas, so an intersection with strictly larger
ordinate 2 exists: the returned value is not the larger root. -/
theorem intersect_smaller_root_counterexample :
    intersect sqIns (1 / 4) ⟨0, 0⟩ ⟨3, 0⟩ 4 = -2
    ∧ OnParabola ⟨0, 0⟩ 4 ⟨3 / 2, 2⟩
    ∧ OnParabola ⟨3, 0⟩ 4 ⟨3 / 2, 2⟩
    ∧ OnParabola ⟨0, 0⟩ 4 ⟨3 / 2, -2⟩
    ∧ OnParabola ⟨3, 0⟩ 4 ⟨3 / 2, -2⟩
    ∧ ((0 : ℚ) + 1 / 4 < 4) ∧ ((3 : ℚ) + 1 / 4 < 4) ∧ ((0 : ℚ) + 1 / 4 < 3)
    ∧ sqIns (intersectD ⟨0, 0⟩ ⟨3, 0⟩ 4) = 3 / 2
    ∧ ((3 : ℚ) / 2) * (3 / 2) = intersectD ⟨0, 0⟩ ⟨3, 0⟩ 4
    ∧ (-2 : ℚ) < 2 := by
  with_unfolding_all decide

/-- C6 amended: in the general quadratic case (both foci strictly left
of the directrix by more than ε, focal abscissas apart by more than ε,
square-root oracle exact and non-negative on the discriminant), the set
of ordinates at which the two parabolas meet is exactly
{`intersect`, `intersectOther`}, and the value `intersect` returns —
`(b + √D)/a` — is the larger of the two roots when `r.x + ε < l.x` and
the smaller when `l.x + ε < r.x`. -/
theorem intersect_extreme_root (sq : ℚ → ℚ) (eps : ℚ) (l r : Pt) (d : ℚ)
    (h0 : 0 < eps) (hld : l.x + eps < d) (hrd : r.x + eps < d)
    (hx : (l.x + eps < r.x) ∨ (r.x + eps < l.x))
    (hs0 : 0 ≤ sq (intersectD l r d))
    (hs : sq (intersectD l r d) * sq (intersectD l r d) = intersectD l r d) :
    (∀ y : ℚ, (∃ x : ℚ, OnParabola l d ⟨x, y⟩ ∧ OnParabola r d ⟨x, y⟩) ↔
        (y = intersect sq eps l r d ∨ y = intersectOther sq l r d))
    ∧ (r.x + eps < l.x → intersectOther sq l r d ≤ intersect sq eps l r d)
    ∧ (l.x + eps < r.x → intersect sq eps l r d ≤ intersectOther sq l r d) :=
  intersect_roots_main sq eps l r d h0 hld hrd hx hs0 hs

/-- Witness for the amended C6 at foci (3,0), (0,0), directrix 4,
tolerance 1/4: the discriminant is 9/4 with exact root 3/2. -/
theorem intersect_extreme_root_witness :
    (∀ y : ℚ, (∃ x : ℚ, OnParabola ⟨3, 0⟩ 4 ⟨x, y⟩ ∧ OnParabola ⟨0, 0⟩ 4 ⟨x, y⟩) ↔
        (y = intersect sqIns (1 / 4) ⟨3, 0⟩ ⟨0, 0⟩ 4 ∨
          y = intersectOther sqIns ⟨3, 0⟩ ⟨0, 0⟩ 4))
    ∧ ((0 : ℚ) + 1 / 4 < 3 →
        intersectOther sqIns ⟨3, 0⟩ ⟨0, 0⟩ 4 ≤ intersect sqIns (1 / 4) ⟨3, 0⟩ ⟨0, 0⟩ 4)
    ∧ ((3 : ℚ) + 1 / 4 < 0 →
        intersect sqIns (1 / 4) ⟨3, 0⟩ ⟨0, 0⟩ 4 ≤ intersectOther sqIns ⟨3, 0⟩ ⟨0, 0⟩ 4) :=
  intersect_extreme_root sqIns (1 / 4) ⟨3, 0⟩ ⟨0, 0⟩ 4 (by norm_num) (by norm_num)
    (by norm_num) (Or.inr (by norm_num)) (by with_unfolding_all decide)
    (by with_unfolding_all decide)

/-- C8: the "triangle inequality" assertion of `circumradius` is not
implied away by `make_vertex`'s acceptance test: with ε = 1/2 the thin
counter-clockwise triple (0,0), (3/4, 5/16), (3/2, 0) passes
`ε² < G` (G = 15/32) and `make_vertex` accepts it, yet the assertion
quantity `V` over the (exact) `hypot` side lengths 13/16, 13/16, 3/2
is 9/32 ≤ ε, so `eps < V` fails — the fatal branch is reachable for
accepted triples. -/
theorem circumradius_assert_reachable :
    (0 : ℚ) < 1 / 2
    ∧ (1 / 2 : ℚ) * (1 / 2) < areaG ⟨0, 0⟩ ⟨3 / 4, 5 / 16⟩ ⟨3 / 2, 0⟩
    ∧ (makeVertex sqThin (1 / 2) emptyVD ⟨0, 0⟩ ⟨3 / 4, 5 / 16⟩ ⟨3 / 2, 0⟩).1 = some 0
    ∧ hypotQ sqThin (3 / 4) (5 / 16) = 13 / 16
    ∧ hypotQ sqThin (3 / 4) (-(5 / 16)) = 13 / 16
    ∧ hypotQ sqThin (3 / 2) 0 = 3 / 2
    ∧ (13 / 16 : ℚ) * (13 / 16) = (3 / 4) * (3 / 4) + (5 / 16) * (5 / 16)
    ∧ (3 / 2 : ℚ) * (3 / 2) = (3 / 2) * (3 / 2) + 0 * 0
    ∧ ¬((1 / 2 : ℚ) <
        triangleV (hypotQ sqThin (3 / 4) (5 / 16)) (hypotQ sqThin (3 / 4) (-(5 / 16)))
          (hypotQ sqThin (3 / 2) 0)) := by
  with_unfolding_all decide

/-- C9: running the sweep on exactly the two sites (0,0) and (1,0)
(tolerance 0 < ε < 1, any square-root oracle, any positive fuel)
produces no vertices, exactly one edge with l = site 0, r = site 1 and
both endpoints unbound, and the two cells each hold exactly that edge. -/
theorem two_sites_diagram (sq : ℚ → ℚ) (eps : ℚ) (fuel : ℕ)
    (h0 : 0 < eps) (h1 : eps < 1) :
    sweepRun sq eps [⟨0, 0⟩, ⟨1, 0⟩] (fuel + 1) = twoSitesOut :=
  two_sites_run_helper sq eps fuel h0 h1

/-- Witness for C9 at ε = 1/2, oracle constantly 0, fuel 1. -/
theorem two_sites_diagram_witness :
    sweepRun (fun _ => 0) (1 / 2) [⟨0, 0⟩, ⟨1, 0⟩] 1 = twoSitesOut :=
  two_sites_diagram (fun _ => 0) (1 / 2) 0 (by norm_num) (by norm_num)


/-- C7: `trunc_edge` with both endpoints unset writes `b := v` exactly
when (`r.x < l.x` and `v.y < l.y`) or (`l.x < r.x` and `r.y < v.y`) and
`e := v` otherwise; with exactly one endpoint set it writes the unset
one; and along every reachable run each `trunc_edge` call performed by
`finish_edges` over an endpoint range meets an edge whose `e` endpoint
is still unset, so the both-endpoints-set case never occurs during the
sweep. -/
theorem trunc_edge_characterization :
    (∀ (lp rp vp : Pt) (ed : Edge) (v : ℕ), ed.b = none → ed.e = none →
        truncEdge lp rp vp ed v =
          if (rp.x < lp.x ∧ vp.y < lp.y) ∨ (lp.x < rp.x ∧ rp.y < vp.y) then
            { ed with b := some v } else { ed with e := some v })
    ∧ (∀ (lp rp vp : Pt) (ed : Edge) (v w : ℕ), ed.b = none → ed.e = some w →
        truncEdge lp rp vp ed v = { ed with b := some v })
    ∧ (∀ (lp rp vp : Pt) (ed : Edge) (v w : ℕ), ed.b = some w →
        truncEdge lp rp vp ed v = { ed with e := some v })
    ∧ (∀ (sq : ℚ → ℚ) (eps : ℚ) (pts : List Pt) (st : VD),
        0 ≤ eps → Reach sq eps pts st →
        ∀ (vp : Pt) (v lo k : ℕ),
          TruncOk pts vp v ((st.bl.drop lo).take k) st.edges) := by
  refine ⟨?_, ?_, ?_, fun sq eps pts st heps h => reach_trunc_ok sq eps pts st heps h⟩
  · intro lp rp vp ed v hb he
    unfold truncEdge
    rw [hb, he]
    by_cases h1 : rp.x < lp.x
    · rw [if_pos h1]
      by_cases h2 : vp.y < lp.y
      · rw [if_pos h2, if_pos (Or.inl ⟨h1, h2⟩)]
      · rw [if_neg h2, if_neg]
        rintro (⟨_, hc⟩ | ⟨hc, _⟩)
        · exact h2 hc
        · exact absurd h1 (lt_asymm hc)
    · rw [if_neg h1]
      by_cases h3 : lp.x < rp.x
      · rw [if_pos h3]
        by_cases h2 : rp.y < vp.y
        · rw [if_pos h2, if_pos (Or.inr ⟨h3, h2⟩)]
        · rw [if_neg h2, if_neg]
          rintro (⟨hc, _⟩ | ⟨_, hc⟩)
          · exact h1 hc
          · exact h2 hc
      · rw [if_neg h3, if_neg]
        rintro (⟨hc, _⟩ | ⟨hc, _⟩)
        · exact h1 hc
        · exact h3 hc
  · intro lp rp vp ed v w hb he
    unfold truncEdge
    rw [hb, he]
  · intro lp rp vp ed v w hb
    unfold truncEdge
    rw [hb]

/-- C10 counterexample: in the `ptsDup` run, at the re-check of the
already-linked breakpoint pair, `make_vertex` finds the stored
circumcircle (id 0) and returns it with the state unchanged — but
`check_event` then takes the `vertices_.erase(v)` branch
(sweepline.hpp:400): the found vertex is erased from the container
while its event stays queued with its original cross-link `some 1`,
instead of the queued event being mapped to the past-the-end
sentinel. -/
theorem duplicate_vertex_event_not_sentinel :
    makeVertex sqDup (1 / 8) stMid (sitePt ptsDup 0) (sitePt ptsDup 1)
        (sitePt ptsDup 2) = (some 0, stMid)
    ∧ stMid.verts = [(0, ⟨⟨25 / 2, 0⟩, 25 / 2⟩)]
    ∧ stMid.evs = [⟨0, some 1⟩]
    ∧ (checkEvent sqDup (1 / 8) ptsDup stMid 0 1).evs = [⟨0, some 1⟩]
    ∧ (checkEvent sqDup (1 / 8) ptsDup stMid 0 1).verts = [] := by
  refine ⟨?_, rfl, rfl, ?_, ?_⟩
  · with_unfolding_all decide
  · with_unfolding_all decide
  · with_unfolding_all decide

/-- C10 amended: along every reachable run no two stored vertices are
equivalent under the container's comparator (which orders by center);
when `make_vertex`'s circumcircle is equivalent to a stored vertex the
stored one's id is returned with the state (in particular the stored
radius) unchanged; but when the adjacent breakpoint already carries an
event cross-link and the new vertex is not strictly earlier,
`check_event` erases the found vertex from the container while leaving
the event queue and the beach line (hence the queued event and its
cross-links) untouched; the mapped-to-`noep` sentinel behaviour is the
event-queue insert's key-collision rule, not this path. -/
theorem duplicate_vertex_handling :
    (∀ (sq : ℚ → ℚ) (eps : ℚ) (pts : List Pt) (st : VD),
        0 ≤ eps → Reach sq eps pts st → VertsInv eps st)
    ∧ (∀ (sq : ℚ → ℚ) (eps : ℚ) (st : VD) (a b c : Pt) (i : ℕ) (w : Vtx),
        eps * eps < areaG a b c →
        st.verts.find? (fun vw => !vertexLess eps (circumVtx sq a b c) vw.2
            && !vertexLess eps vw.2 (circumVtx sq a b c)) = some (i, w) →
        makeVertex sq eps st a b c = (some i, st))
    ∧ (∀ (sq : ℚ → ℚ) (eps : ℚ) (pts : List Pt) (st : VD) (li ri v wl : ℕ),
        (st.bl.getD li default).link = some wl →
        makeVertex sq eps st (sitePt pts (st.bl.getD li default).l)
            (sitePt pts (st.bl.getD li default).r)
            (sitePt pts (st.bl.getD ri default).r) = (some v, st) →
        eventLess eps (getVtx st v) (getVtx st wl) = false →
        checkEvent sq eps pts st li ri = vertsErase st v)
    ∧ (∀ (st : VD) (v : ℕ),
        (vertsErase st v).evs = st.evs ∧ (vertsErase st v).bl = st.bl
          ∧ (vertsErase st v).edges = st.edges
          ∧ (vertsErase st v).verts = st.verts.filter (fun vw => vw.1 != v))
    ∧ (∀ (less : ℕ → ℕ → Bool) (e : Ev) (es : List Ev) (v : ℕ) (lnk : Option ℕ),
        less v e.v = false → less e.v v = false →
        evsInsertOrNoep less (e :: es) v lnk = ⟨e.v, none⟩ :: es) := by
  refine ⟨fun sq eps pts st heps h => (reach_sweepInv sq eps pts st heps h).2,
    ?_, ?_, fun st v => ⟨rfl, rfl, rfl, rfl⟩, ?_⟩
  · intro sq eps st a b c i w hg hfind
    unfold makeVertex vertsInsert
    rw [if_pos hg, hfind]
  · intro sq eps pts st li ri v wl hl hmv hless
    simp only [checkEvent, hmv, hl, hless]
    rw [if_neg (by simp)]
  · intro less e es v lnk h1 h2
    simp [evsInsertOrNoep, h1, h2]

end Sweepline
